import Mathlib

/-!
Verification development for the YouTube transcript extractor script
(`youtube_transcript.py`).  Python strings are modelled as `List Char`,
floating-point times and delays as `ℚ`, and the external world (YouTube
API, filesystem, browser) as explicit oracle records.  Each `def` mirrors
one Python function or code block; side effects (sleeps, fetch attempts,
browser lifecycle) are recorded as explicit event traces.
-/

namespace YT

/-- Python `s2 in s1` check for a prefix: `startsWithL hay pat` is true when
`pat` is an initial segment of `hay`. -/
def startsWithL : List Char → List Char → Bool
  | _, [] => true
  | [], _ :: _ => false
  | c :: cs, p :: ps => c == p && startsWithL cs ps

/-- Python substring membership `pat in hay` (contiguous substring). -/
def containsSub : List Char → List Char → Bool
  | hay, pat =>
    startsWithL hay pat ||
      (match hay with
       | [] => false
       | _ :: rest => containsSub rest pat)

/-- Python `str.lower()` restricted to ASCII (the rate-limit markers and URL
patterns in the script are all ASCII). -/
def lowerChars (l : List Char) : List Char := l.map Char.toLower

/-- Segment of `l` strictly before the first occurrence of `c`
(all of `l` when `c` does not occur). -/
def takeUntilChar (c : Char) (l : List Char) : List Char :=
  l.takeWhile (fun a => a != c)

/-- Segment of `l` from the first occurrence of `c` on (empty when absent). -/
def dropUntilChar (c : Char) (l : List Char) : List Char :=
  l.dropWhile (fun a => a != c)

/-- Python `s.split(c, 1)` as a pair: text before the first `c` and text
after it; when `c` is absent the whole string is the first component. -/
def splitFirstChar (c : Char) (l : List Char) : List Char × List Char :=
  match dropUntilChar c l with
  | [] => (l, [])
  | _ :: t => (takeUntilChar c l, t)

/-- Python `s.split(c)` (split on every occurrence of one character). -/
def splitOnCharL (c : Char) : List Char → List (List Char)
  | [] => [[]]
  | x :: xs =>
    if x == c then [] :: splitOnCharL c xs
    else
      match splitOnCharL c xs with
      | [] => [[x]]
      | h :: t => (x :: h) :: t

/-- Python `parts[-1]` for the (always nonempty) result of a split. -/
def lastD (xs : List (List Char)) : List Char := (xs.getLast?).getD []

/-- Python `str.isspace` members relevant to `str.strip()` and `\s`,
restricted to the ASCII whitespace characters. -/
def pyIsSpace (c : Char) : Bool :=
  c == ' ' || c == '\t' || c == '\n' || c == '\x0b' || c == '\x0c' || c == '\r'

/-- Removal of trailing characters satisfying `p`. -/
def dropEndWhile (p : Char → Bool) (l : List Char) : List Char :=
  (l.reverse.dropWhile p).reverse

/-- Python `str.strip()` (whitespace at both ends). -/
def pyStrip (l : List Char) : List Char :=
  dropEndWhile pyIsSpace (l.dropWhile pyIsSpace)

/-- Python `str.strip('. ')` (dots and spaces at both ends). -/
def isDotOrBlank (c : Char) : Bool := c == '.' || c == ' '

def stripDotSpace (l : List Char) : List Char :=
  dropEndWhile isDotOrBlank (l.dropWhile isDotOrBlank)

/-- Worker for `re.sub(r'\s+', ' ', s)`: `prevSpace` records whether the
previous character belonged to a whitespace run already emitted as `' '`. -/
def collapseWsGo : Bool → List Char → List Char
  | _, [] => []
  | prevSpace, c :: rest =>
    if pyIsSpace c then
      if prevSpace then collapseWsGo true rest
      else ' ' :: collapseWsGo true rest
    else c :: collapseWsGo false rest

/-- Python `re.sub(r'\s+', ' ', s)`: every maximal whitespace run becomes one
space. -/
def collapseWs (l : List Char) : List Char := collapseWsGo false l

/-- Python `s.rsplit(' ', 1)[0]`: the part before the last space, or the whole
string when it has no space. -/
def cutAtLastBlank (l : List Char) : List Char :=
  match l.reverse.dropWhile (fun c => c != ' ') with
  | [] => l
  | _ :: t => t.reverse

/-- Python `' '.join(parts)`. -/
def joinBlank : List (List Char) → List Char
  | [] => []
  | [x] => x
  | x :: y :: rest => x ++ ' ' :: joinBlank (y :: rest)

end YT

namespace YT

theorem beqChar_comm (a b : Char) : (a == b) = (b == a) := by
  by_cases h : a = b
  · subst h; rfl
  · have h1 : (a == b) = false := beq_eq_false_iff_ne.mpr h
    have h2 : (b == a) = false := beq_eq_false_iff_ne.mpr (Ne.symm h)
    rw [h1, h2]

theorem startsWithL_nil_pat (hay : List Char) : startsWithL hay [] = true := by
  cases hay <;> rfl

theorem startsWithL_length_le (hay pat : List Char)
    (h : startsWithL hay pat = true) : pat.length ≤ hay.length := by
  induction pat generalizing hay with
  | nil => simp
  | cons p ps ih =>
    cases hay with
    | nil => simp [startsWithL] at h
    | cons c cs =>
      simp only [startsWithL, Bool.and_eq_true] at h
      simpa using Nat.succ_le_succ (ih cs h.2)

theorem mem_of_startsWithL (hay pat : List Char)
    (h : startsWithL hay pat = true) : ∀ c ∈ pat, c ∈ hay := by
  induction pat generalizing hay with
  | nil => simp
  | cons p ps ih =>
    cases hay with
    | nil => simp [startsWithL] at h
    | cons a cs =>
      simp only [startsWithL, Bool.and_eq_true, beq_iff_eq] at h
      intro c hc
      rcases List.mem_cons.mp hc with hc | hc
      · subst hc; rw [h.1]; exact List.mem_cons_self _ _
      · exact List.mem_cons_of_mem _ (ih cs h.2 c hc)

theorem startsWithL_append_left (a b pat : List Char)
    (h : pat.length ≤ a.length) :
    startsWithL (a ++ b) pat = startsWithL a pat := by
  induction pat generalizing a with
  | nil => rw [startsWithL_nil_pat, startsWithL_nil_pat]
  | cons p ps ih =>
    cases a with
    | nil => simp at h
    | cons c cs =>
      simp only [List.cons_append, startsWithL, List.append_eq]
      rw [ih cs (by simpa using h)]

theorem startsWithL_append_split (a b pat : List Char)
    (h : a.length < pat.length) :
    startsWithL (a ++ b) pat = (startsWithL pat a && startsWithL b (pat.drop a.length)) := by
  induction a generalizing pat with
  | nil =>
    cases pat with
    | nil => simp at h
    | cons p ps => simp [startsWithL, startsWithL_nil_pat]
  | cons c cs ih =>
    cases pat with
    | nil => simp at h
    | cons p ps =>
      simp only [List.cons_append, startsWithL, List.length_cons, List.drop_succ_cons,
        List.append_eq]
      rw [ih ps (by simpa using h), beqChar_comm c p, Bool.and_assoc]

theorem containsSub_iff (hay pat : List Char) :
    containsSub hay pat = true ↔
      ∃ i, i ≤ hay.length ∧ startsWithL (hay.drop i) pat = true := by
  induction hay with
  | nil =>
    constructor
    · intro h
      rw [containsSub] at h
      simp only [Bool.or_eq_true] at h
      rcases h with h | h
      · exact ⟨0, by simp, h⟩
      · simp at h
    · rintro ⟨i, hi, h⟩
      rw [containsSub]
      simp only [Nat.le_zero, List.length_nil] at hi
      subst hi
      simp only [List.drop_nil] at h
      simp [h]
  | cons c cs ih =>
    constructor
    · intro h
      rw [containsSub] at h
      simp only [Bool.or_eq_true] at h
      rcases h with h | h
      · exact ⟨0, by simp, h⟩
      · rcases ih.mp h with ⟨i, hi, hs⟩
        exact ⟨i + 1, by simpa using hi, by simpa using hs⟩
    · rintro ⟨i, hi, h⟩
      rw [containsSub]
      simp only [Bool.or_eq_true]
      cases i with
      | zero => exact Or.inl (by simpa using h)
      | succ j =>
        exact Or.inr (ih.mpr ⟨j, by simpa using hi, by simpa using h⟩)

theorem containsSub_append_left (l r pat : List Char)
    (h : containsSub l pat = true) : containsSub (l ++ r) pat = true := by
  rcases (containsSub_iff l pat).mp h with ⟨i, hi, hs⟩
  refine (containsSub_iff (l ++ r) pat).mpr ⟨i, by simp; omega, ?_⟩
  have hd : (l ++ r).drop i = l.drop i ++ r := by
    rw [List.drop_append_eq_append_drop]
    have : i - l.length = 0 := by omega
    rw [this]
    simp
  rw [hd, startsWithL_append_left _ _ _ (startsWithL_length_le _ _ hs)]
  exact hs

/-- Decidable certificate that no occurrence of `pat` can start inside `l` or
cross from `l` into an arbitrary continuation made of `valid` characters. -/
def cannotCross (l pat : List Char) (valid : Char → Bool) : Bool :=
  (List.range (l.length + 1)).all fun i =>
    let a := l.drop i
    if pat.length ≤ a.length then !(startsWithL a pat)
    else !(startsWithL pat a && (pat.drop a.length).all valid)

theorem containsSub_append_eq_false (l r pat : List Char) (valid : Char → Bool)
    (hc : cannotCross l pat valid = true) (hr : r.all valid = true) :
    containsSub (l ++ r) pat = false := by
  cases hres : containsSub (l ++ r) pat
  · rfl
  exfalso
  rcases (containsSub_iff _ _).mp hres with ⟨i, _, hs⟩
  have hall : ∀ j, j ≤ l.length →
      (if pat.length ≤ (l.drop j).length then !(startsWithL (l.drop j) pat)
       else !(startsWithL pat (l.drop j) && (pat.drop (l.drop j).length).all valid)) = true := by
    intro j hj
    have := List.all_eq_true.mp hc j (List.mem_range.mpr (by omega))
    simpa using this
  by_cases hil : i ≤ l.length
  · have hd : (l ++ r).drop i = l.drop i ++ r := by
      rw [List.drop_append_eq_append_drop]
      have : i - l.length = 0 := by omega
      rw [this]; simp
    rw [hd] at hs
    have hcert := hall i hil
    by_cases hlen : pat.length ≤ (l.drop i).length
    · rw [if_pos hlen] at hcert
      rw [startsWithL_append_left _ _ _ hlen] at hs
      rw [hs] at hcert
      simp at hcert
    · rw [if_neg hlen] at hcert
      have hsplit := startsWithL_append_split (l.drop i) r pat (by omega)
      rw [hsplit] at hs
      simp only [Bool.and_eq_true] at hs
      have hmem : ∀ c ∈ pat.drop (l.drop i).length, c ∈ r :=
        mem_of_startsWithL r _ hs.2
      have hvalid : (pat.drop (l.drop i).length).all valid = true := by
        rw [List.all_eq_true]
        intro c hcmem
        exact List.all_eq_true.mp hr c (hmem c hcmem)
      rw [hs.1, hvalid] at hcert
      simp at hcert
  · -- the occurrence starts inside `r`, so every character of `pat` is valid;
    -- the certificate at `j = l.length` rules that out
    have hd : (l ++ r).drop i = r.drop (i - l.length) := by
      rw [List.drop_append_eq_append_drop]
      have : l.drop i = [] := List.drop_eq_nil_of_le (by omega)
      rw [this]; simp
    rw [hd] at hs
    have hmem : ∀ c ∈ pat, c ∈ r := by
      intro c hcmem
      have := mem_of_startsWithL _ _ hs c hcmem
      exact List.mem_of_mem_drop this
    have hvalid : pat.all valid = true := by
      rw [List.all_eq_true]
      intro c hcmem
      exact List.all_eq_true.mp hr c (hmem c hcmem)
    have hcert := hall l.length (Nat.le_refl _)
    rw [List.drop_length] at hcert
    by_cases hpat : pat.length = 0
    · -- an empty pattern: the certificate is `!(startsWithL [] [])`, false
      have : pat = [] := List.length_eq_zero.mp hpat
      subst this
      simp [startsWithL] at hcert
    · have hpl : ¬ (pat.length ≤ ([] : List Char).length) := by
        simp only [List.length_nil, Nat.le_zero]
        exact hpat
      rw [if_neg hpl, startsWithL_nil_pat] at hcert
      simp only [List.length_nil, List.drop_zero, Bool.true_and, hvalid] at hcert
      simp at hcert

end YT

namespace YT

/-- Percent-decoding with `+` as space, modelling Python
`urllib.parse.unquote_plus` on the byte-per-character level (multi-byte UTF-8
sequences are decoded byte-wise, which agrees with Python on the ASCII inputs
this script handles). -/
def hexVal (c : Char) : Nat :=
  if c.isDigit then c.toNat - 48
  else if 'a' ≤ c ∧ c ≤ 'f' then c.toNat - 87
  else if 'A' ≤ c ∧ c ≤ 'F' then c.toNat - 55
  else 0

def isHexDigitC (c : Char) : Bool :=
  c.isDigit || ('a' ≤ c && c ≤ 'f') || ('A' ≤ c && c ≤ 'F')

def pctOk : List Char → Bool
  | a :: b :: _ => isHexDigitC a && isHexDigitC b
  | _ => false

def unquotePlus : List Char → List Char
  | [] => []
  | '+' :: rest => ' ' :: unquotePlus rest
  | '%' :: a :: b :: rest =>
    if isHexDigitC a && isHexDigitC b then
      Char.ofNat (hexVal a * 16 + hexVal b) :: unquotePlus rest
    else '%' :: unquotePlus (a :: b :: rest)
  | c :: rest => c :: unquotePlus rest

/-- Result of Python `urllib.parse.urlparse` restricted to the fields the
script reads (`path` and `query`), plus the components needed to compute
them. Simplifications relative to CPython, irrelevant for the inputs the
verified claims quantify over: the WHATWG removal of tab/CR/LF bytes and the
`;params` split of the path are omitted. -/
structure UrlParts where
  scheme : List Char
  netloc : List Char
  path : List Char
  query : List Char
  fragment : List Char
  deriving Repr, DecidableEq

def isSchemeCharB (c : Char) : Bool :=
  c.isAlpha || c.isDigit || c == '+' || c == '-' || c == '.'

def isNetlocEnd (c : Char) : Bool := c == '/' || c == '?' || c == '#'

def urlparseL (url : List Char) : UrlParts :=
  -- scheme: `i = url.find(':')`, accepted when `i > 0`, the first character
  -- is a letter and everything before the colon is a scheme character
  let pre := takeUntilChar ':' url
  let (scheme, u1) :=
    match dropUntilChar ':' url with
    | [] => (([] : List Char), url)
    | _ :: tail =>
      if pre ≠ [] ∧ (pre.headD ' ').isAlpha ∧ pre.all isSchemeCharB then
        (pre.map Char.toLower, tail)
      else ([], url)
  -- netloc: present only after a leading `//` (Python `url.startswith('//')`)
  let (netloc, u2) :=
    if startsWithL u1 ("//".toList) then
      ((u1.drop 2).takeWhile (fun c => !(isNetlocEnd c)),
       (u1.drop 2).dropWhile (fun c => !(isNetlocEnd c)))
    else (([] : List Char), u1)
  -- fragment is split off before the query, as in CPython
  let (u3, fragment) := splitFirstChar '#' u2
  let (path, query) := splitFirstChar '?' u3
  { scheme := scheme, netloc := netloc, path := path, query := query,
    fragment := fragment }

/-- Python `urllib.parse.parse_qs` with default arguments: fields split on
`&`, names and values split at the first `=`, blank values and fields
without `=` dropped, names and values percent-decoded. -/
def parseQsPairs (q : List Char) : List (List Char × List Char) :=
  (splitOnCharL '&' q).filterMap fun field =>
    if field.isEmpty then none
    else
      match dropUntilChar '=' field with
      | [] => none          -- no '=': skipped when blank values are dropped
      | _ :: v =>
        if v.isEmpty then none
        else some (unquotePlus (takeUntilChar '=' field), unquotePlus v)

/-- Python `query_params['v'][0]`: value of the first pair named `v`. -/
def qsFirstV : List (List Char × List Char) → Option (List Char)
  | [] => none
  | (n, v) :: rest => if n == ['v'] then some v else qsFirstV rest

/-- Character class of the bare-ID regex `[a-zA-Z0-9_-]`. -/
def isIdChar (c : Char) : Bool :=
  let n := c.toNat
  (65 ≤ n && n ≤ 90) || (97 ≤ n && n ≤ 122) || (48 ≤ n && n ≤ 57) || n == 95 || n == 45

/-- Python `re.match(r'^[a-zA-Z0-9_-]{11}$', url)` as a boolean.  Note the
Python `$` anchor also matches just before a single trailing newline, so a
12-character string consisting of 11 ID characters plus `'\n'` matches too. -/
def reMatchBareId (u : List Char) : Bool :=
  (u.length == 11 && u.all isIdChar) ||
    (u.length == 12 && (u.take 11).all isIdChar && u.drop 11 == ['\n'])

/-- Model of `extract_video_id` (youtube_transcript.py lines 106-137): four
pattern checks in fixed order; `None` when nothing matches. -/
def extract_video_id (url : List Char) : Option (List Char) :=
  -- Pattern 1: youtube.com/watch?v=VIDEO_ID (falls through when the query
  -- has no 'v' parameter)
  let p1 : Option (List Char) :=
    if containsSub url ("youtube.com/watch".toList) then
      qsFirstV (parseQsPairs (urlparseL url).query)
    else none
  match p1 with
  | some v => some v
  | none =>
    -- Pattern 2: youtu.be/VIDEO_ID
    if containsSub url ("youtu.be/".toList) then
      some ((urlparseL url).path.dropWhile (fun c => c == '/'))
    -- Pattern 3: youtube.com/embed/VIDEO_ID or youtube.com/v/VIDEO_ID
    else if containsSub url ("youtube.com/embed/".toList) ||
            containsSub url ("youtube.com/v/".toList) then
      some (lastD (splitOnCharL '/' (urlparseL url).path))
    -- Bare video ID
    else if reMatchBareId url then some url
    else none

/-- Characters removed by `re.sub(r'[<>:"/\\|?*]', '', title)`. -/
def invalidFileChar (c : Char) : Bool :=
  c == '<' || c == '>' || c == ':' || c == '"' || c == '/' || c == '\\' ||
    c == '|' || c == '?' || c == '*'

/-- Intermediate value of `sanitize_filename` after character stripping,
whitespace collapsing and trimming of leading/trailing dots and spaces
(youtube_transcript.py lines 152-158). -/
def sanitizeClean (title : List Char) : List Char :=
  stripDotSpace (collapseWs (title.filter (fun c => !(invalidFileChar c))))

/-- Model of `sanitize_filename` (youtube_transcript.py lines 140-168). -/
def sanitize_filename (title : List Char) (maxLength : Nat) : List Char :=
  let clean := sanitizeClean title
  let cut := if maxLength < clean.length then cutAtLastBlank (clean.take maxLength)
             else clean
  if cut.isEmpty then "untitled".toList else cut

end YT

namespace YT

/-- Python `'\n'.join(parts)`. -/
def joinNl : List (List Char) → List Char
  | [] => []
  | [x] => x
  | x :: y :: rest => x ++ '\n' :: joinNl (y :: rest)

/-- One transcript snippet from the API: start time and duration in seconds
(exact rationals standing for the script's floats) and the text. -/
structure Snippet where
  start : ℚ
  duration : ℚ
  text : List Char

/-- Python `text.endswith(('.', '!', '?'))`. -/
def endsSentence (t : List Char) : Bool :=
  match t.getLast? with
  | some c => c == '.' || c == '!' || c == '?'
  | none => false

/-- State of the paragraph loop: the accumulated texts and `last_end_time`. -/
structure ParaState where
  buf : List (List Char)
  lastEnd : ℚ

/-- One iteration of the paragraph loop of `fetch_transcript`
(youtube_transcript.py lines 320-334): the stripped text is appended to the
buffer, then the buffer is flushed as one paragraph exactly when
(gap > 2.0 or sentence-ending text) and joined length > 100. -/
def paraStep (st : ParaState) (s : Snippet) : ParaState × List (List Char) :=
  let text := pyStrip s.text
  let buf := st.buf ++ [text]
  let newLast := s.start + s.duration
  if (s.start - st.lastEnd > 2 ∨ endsSentence text = true) ∧ 100 < (joinBlank buf).length then
    (⟨[], newLast⟩, [joinBlank buf ++ ['\n']])
  else (⟨buf, newLast⟩, [])

def paraFold : List Snippet → ParaState → ParaState × List (List Char)
  | [], st => (st, [])
  | s :: rest, st =>
    let p := paraStep st s
    let q := paraFold rest p.1
    (q.1, p.2 ++ q.2)

/-- Paragraph-mode body of `fetch_transcript` (lines 316-338): the loop over
snippets followed by the unconditional flush of a nonempty final buffer. -/
def paragraphBlocks (snips : List Snippet) : List (List Char) :=
  let r := paraFold snips ⟨[], 0⟩
  if r.1.buf.isEmpty then r.2 else r.2 ++ [joinBlank r.1.buf ++ ['\n']]

/-- Python `f"{n:02d}"`. -/
def twoDigits (n : Nat) : List Char :=
  (if n < 10 then ['0'] else []) ++ Nat.toDigits 10 n

/-- Model of `format_timestamp` (lines 209-220); transcript times are
nonnegative, so Python's `int()` truncation is the floor. -/
def format_timestamp (seconds : ℚ) : List Char :=
  let total := seconds.floor.toNat
  let hours := total / 3600
  let minutes := (total % 3600) / 60
  let secs := total % 60
  if 0 < hours then
    twoDigits hours ++ ':' :: twoDigits minutes ++ ':' :: twoDigits secs
  else twoDigits minutes ++ ':' :: twoDigits secs

/-- A transcript track as listed by the provider. -/
structure Track where
  language_code : List Char
  is_generated : Bool

/-- A fetched transcript as returned by `api.fetch`. -/
structure FetchedTranscript where
  language_code : List Char
  is_generated : Bool
  snippets : List Snippet

/-- Oracle for the external `youtube_transcript_api` calls made by
`fetch_transcript`; each field is the outcome of one library call
(`Except.error` carries the Python exception's `str(e)`). -/
structure ApiEnv where
  find_transcript : List (List Char) → Except (List Char) Track
  find_generated_transcript : List (List Char) → Except (List Char) Track
  build_list : Except (List Char) (List Track)
  fetch_by_language : List Char → Except (List Char) FetchedTranscript

/-- Language fallback chain of `fetch_transcript` (lines 287-295): exact
requested language, then auto-generated English, then a lookup keyed by
`transcript_list.build()[0]['language_code']`.  That third call passes a
*string* where `find_transcript` expects a list of language codes; iterating
the string yields its one-character substrings, modelled here explicitly. -/
def attemptChain (env : ApiEnv) (language : List Char) : Except (List Char) Track :=
  match env.find_transcript [language] with
  | .ok t => .ok t
  | .error _ =>
    match env.find_generated_transcript [("en".toList)] with
    | .ok t => .ok t
    | .error _ =>
      match env.build_list with
      | .error e => .error e
      | .ok [] => .error ("list index out of range".toList)
      | .ok (t0 :: _) => env.find_transcript (t0.language_code.map (fun c => [c]))

/-- Markdown header block of the API path (lines 300-306). -/
def apiHeader (videoId : List Char) (ft : FetchedTranscript) : List (List Char) :=
  [ "# YouTube Transcript\n".toList,
    "**Video ID:** ".toList ++ videoId,
    "**URL:** https://www.youtube.com/watch?v=".toList ++ videoId,
    "**Language:** ".toList ++ ft.language_code,
    "**Generated:** ".toList ++ (if ft.is_generated then "Yes\n".toList else "No\n".toList),
    "---\n".toList ]

/-- Markdown body of the API path (lines 308-342). -/
def apiBody (ft : FetchedTranscript) (include_timestamps preserve_formatting : Bool) :
    List (List Char) :=
  if include_timestamps then
    ft.snippets.map fun s =>
      "**[".toList ++ format_timestamp s.start ++ "]** ".toList ++ pyStrip s.text ++ ['\n']
  else if preserve_formatting then paragraphBlocks ft.snippets
  else [joinBlank (ft.snippets.map fun s => pyStrip s.text)]

/-- Model of `fetch_transcript` (lines 259-347).  The guard on line 278 is
Python's truthiness test `if not video_id:`, so both a failed extraction and
an extraction returning the empty string raise before the `try` block;
everything else that fails is wrapped into the single aggregated
`"Failed to fetch transcript: ..."` error. -/
def fetch_transcript (env : ApiEnv) (url : List Char) (include_timestamps : Bool)
    (language : List Char) (preserve_formatting : Bool) : Except (List Char) (List Char) :=
  match extract_video_id url with
  | none => .error ("Invalid YouTube URL: ".toList ++ url)
  | some vid =>
    if vid.isEmpty then .error ("Invalid YouTube URL: ".toList ++ url)
    else
    let inner : Except (List Char) (List Char) := do
      let t ← attemptChain env language
      let ft ← env.fetch_by_language t.language_code
      pure (joinNl (apiHeader vid ft ++ apiBody ft include_timestamps preserve_formatting))
    match inner with
    | .ok md => .ok md
    | .error e => .error ("Failed to fetch transcript: ".toList ++ e)

/-- Browser lifecycle events of the Playwright fallback. -/
inductive PwEv where
  | launch
  | closeBrowser
  | stopDriver
  deriving DecidableEq

/-- Oracle for the browser world of `fetch_transcript_playwright`:
`nav` is the navigation/settling phase (may raise), `clicked` the outcome of
the selector loop (which swallows its own exceptions), `segments` the
`page.evaluate` extraction (may raise). -/
structure PwEnv where
  available : Bool
  nav : Except (List Char) Unit
  clicked : Bool
  segments : Except (List Char) (List (List Char × List Char))

/-- Paragraph grouping of the Playwright path (lines 477-487): no time gaps,
flush on sentence end and joined length > 100, final flush unconditional. -/
def pwParaFold : List (List Char) → List (List Char) → List (List Char) × List (List Char)
  | [], buf => (buf, [])
  | t :: rest, buf =>
    let buf' := buf ++ [t]
    if endsSentence t && decide (100 < (joinBlank buf').length) then
      let q := pwParaFold rest []
      (q.1, (joinBlank buf' ++ ['\n']) :: q.2)
    else
      let q := pwParaFold rest buf'
      (q.1, q.2)

def pwParagraphs (texts : List (List Char)) : List (List Char) :=
  let r := pwParaFold texts []
  if r.1.isEmpty then r.2 else r.2 ++ [joinBlank r.1 ++ ['\n']]

/-- Markdown produced by the Playwright path (lines 462-489). -/
def pwMarkdown (vid : List Char) (segs : List (List Char × List Char))
    (include_timestamps : Bool) : List Char :=
  let header : List (List Char) :=
    [ "# YouTube Transcript\n".toList,
      "**Video ID:** ".toList ++ vid,
      "**URL:** https://www.youtube.com/watch?v=".toList ++ vid,
      "**Source:** Playwright Fallback\n".toList,
      "---\n".toList ]
  let body : List (List Char) :=
    if include_timestamps then
      segs.map fun s => "**[".toList ++ s.1 ++ "]** ".toList ++ s.2 ++ ['\n']
    else pwParagraphs (segs.map fun s => s.2)
  joinNl (header ++ body)

/-- Model of `fetch_transcript_playwright` (lines 350-492) together with its
browser-lifecycle trace.  The import and URL checks raise before the
`with sync_playwright()` block (the URL check on lines 370-372 is Python's
truthiness test `if not video_id:`, rejecting an empty extracted ID as
well); inside it, `browser.close()` (line 455) runs
only after a successful extraction, while the context manager's exit
(`stopDriver`) runs on every path leaving the block, shutting down the
driver process and with it any browser it launched. -/
def fetch_transcript_playwright (env : PwEnv) (url : List Char)
    (include_timestamps : Bool) : Except (List Char) (List Char) × List PwEv :=
  if !env.available then
    (.error ("Playwright is required for fallback. Install with: pip install playwright && playwright install chromium".toList), [])
  else
    match extract_video_id url with
    | none => (.error ("Invalid YouTube URL: ".toList ++ url), [])
    | some vid =>
      if vid.isEmpty then (.error ("Invalid YouTube URL: ".toList ++ url), [])
      else
      let body : Except (List Char) (List Char) × List PwEv :=
        match env.nav with
        | .error e => (.error e, [PwEv.launch])
        | .ok _ =>
          if !env.clicked then
            (.error ("Could not find transcript button on page".toList), [PwEv.launch])
          else
            match env.segments with
            | .error e => (.error e, [PwEv.launch])
            | .ok segs =>
              if segs.isEmpty then
                (.error ("No transcript segments found".toList),
                 [PwEv.launch, PwEv.closeBrowser])
              else
                (.ok (pwMarkdown vid segs include_timestamps),
                 [PwEv.launch, PwEv.closeBrowser])
      let wrapped : Except (List Char) (List Char) :=
        match body.1 with
        | .ok md => .ok md
        | .error e => .error ("Playwright fallback failed: ".toList ++ e)
      (wrapped, body.2 ++ [PwEv.stopDriver])

/-- Browser-open flag after a trace of lifecycle events. -/
def openAfter (evs : List PwEv) : Bool :=
  evs.foldl (fun _ e =>
    match e with
    | PwEv.launch => true
    | PwEv.closeBrowser => false
    | PwEv.stopDriver => false) false

end YT

namespace YT

/-- Events observable at the level of `save_transcript` and `main`. -/
inductive TopEv where
  | apiAttempt
  | pwAttempt
  | fileWrite (path : List Char)
  | stdout (text : List Char)
  | batchMode
  deriving DecidableEq

/-- Model of `save_transcript` (lines 495-541): API first, then — only when
the fallback is enabled and Playwright importable — the browser fallback;
both failing yields one combined error built from the two truncated
messages. -/
def save_transcript (api : ApiEnv) (pw : PwEnv) (url outputFile : List Char)
    (include_timestamps : Bool) (language : List Char)
    (use_playwright_fallback : Bool) : Except (List Char) (List Char) × List TopEv :=
  match fetch_transcript api url include_timestamps language true with
  | .ok _ => (.ok outputFile, [TopEv.apiAttempt, TopEv.fileWrite outputFile])
  | .error apiErr =>
    if use_playwright_fallback && pw.available then
      match (fetch_transcript_playwright pw url include_timestamps).1 with
      | .ok _ => (.ok outputFile, [TopEv.apiAttempt, TopEv.pwAttempt, TopEv.fileWrite outputFile])
      | .error fbErr =>
        (.error ("Both API and Playwright failed. API: ".toList ++ apiErr.take 50 ++
                   ", Playwright: ".toList ++ fbErr.take 50),
         [TopEv.apiAttempt, TopEv.pwAttempt])
    else (.error apiErr, [TopEv.apiAttempt])

/-- Batch-level events: one fetch attempt (a `save_transcript` call) for a
url, a `time.sleep`, or a skip of an existing file. -/
inductive BEv where
  | attempt (url : List Char) (k : Nat)
  | sleep (q : ℚ)
  | skip (url : List Char)
  deriving DecidableEq

/-- Oracle for the world seen by `batch_fetch`: `title` is
`fetch_video_title`, `file_size` is `os.path.exists`/`os.path.getsize`, and
`save url k` is the outcome of the `save_transcript` call on the k-th attempt
for `url` (`none` = success, `some msg` = the raised exception's message).
The `include_timestamps`, `language` and `use_playwright_fallback` arguments
of the Python function are only forwarded into those calls, so they are
absorbed by the oracle. -/
structure BatchEnv where
  title : List Char → Option (List Char)
  file_size : List Char → Option Nat
  save : List Char → Nat → Option (List Char)

/-- Rate-limit test of the retry loop (line 618): the lowercased message
contains `"blocking"` or `"blocked"`. -/
def isRateLimitMsg (msg : List Char) : Bool :=
  containsSub (lowerChars msg) ("blocking".toList) ||
    containsSub (lowerChars msg) ("blocked".toList)

/-- Python `os.path.join` for the shapes reachable here. -/
def joinPath (dir name : List Char) : List Char :=
  if dir.isEmpty then name
  else if name.headD ' ' == '/' then name
  else if dir.getLast? == some '/' then dir ++ name
  else dir ++ '/' :: name

/-- Retry loop of `batch_fetch` (lines 602-632), unrolled from attempt `k`
with `fuel` attempts remaining (the top-level call is `k = 0`,
`fuel = maxRetries`).  Result `none` means the loop ended without writing
`results[url]` (possible only when `maxRetries = 0`); `some none` is a
recorded failure; `some (some path)` a recorded success.  On success the
inter-video pacing sleep happens only when the video is not the last one;
on a rate-limited failure the backoff sleep `delay * 2^k` happens before
the final-attempt check. -/
def retryGo (env : BatchEnv) (url outputFile : List Char) (delay : ℚ)
    (maxRetries : Nat) (isLast : Bool) :
    Nat → Nat → Option (Option (List Char)) × List BEv
  | _, 0 => (none, [])
  | k, fuel + 1 =>
    match env.save url k with
    | none =>
      (some (some outputFile),
       BEv.attempt url k :: (if isLast then [] else [BEv.sleep delay]))
    | some msg =>
      if isRateLimitMsg msg then
        let pre := [BEv.attempt url k, BEv.sleep (delay * 2 ^ k)]
        if k = maxRetries - 1 then (some none, pre)
        else
          let r := retryGo env url outputFile delay maxRetries isLast (k + 1) fuel
          (r.1, pre ++ r.2)
      else (some none, [BEv.attempt url k])

/-- Output path chosen for a video (lines 583-592): the sanitized title when
`fetch_video_title` succeeds, the raw video id otherwise, joined with the
output directory and the `.md` extension. -/
def outputFileFor (env : BatchEnv) (outputDir url vid : List Char) : List Char :=
  joinPath outputDir
    ((match env.title url with
      | some t => sanitize_filename t 100
      | none => vid) ++ (".md".toList))

/-- Per-video body of the `batch_fetch` loop (lines 574-632): invalid URL —
the truthiness test `if not video_id:` on line 577, so a failed extraction
or an empty extracted ID — → recorded `None`; then filename from title
(fallback: the video id); then the skip-existing check (strictly more than
100 bytes); otherwise the retry loop. -/
def processVideo (env : BatchEnv) (outputDir : List Char) (delay : ℚ)
    (maxRetries : Nat) (skipExisting : Bool) (url : List Char) (isLast : Bool) :
    Option (Option (List Char)) × List BEv :=
  match extract_video_id url with
  | none => (some none, [])
  | some vid =>
    if vid.isEmpty then (some none, [])
    else
    let outputFile := outputFileFor env outputDir url vid
    let existsBig : Bool :=
      match env.file_size outputFile with
      | some n => decide (100 < n)
      | none => false
    if skipExisting && existsBig then
      (some (some outputFile), [BEv.skip url])
    else retryGo env url outputFile delay maxRetries isLast 0 maxRetries

/-- Python dict assignment `results[url] = v` on an association list. -/
def upsert (k : List Char) (v : Option (List Char)) :
    List (List Char × Option (List Char)) → List (List Char × Option (List Char))
  | [] => [(k, v)]
  | (k', v') :: rest => if k' == k then (k, v) :: rest else (k', v') :: upsert k v rest

/-- Python dict lookup `results.get(url)` distinguishing a missing key
(`none`) from a key mapped to `None` (`some none`). -/
def lookupA (k : List Char) :
    List (List Char × Option (List Char)) → Option (Option (List Char))
  | [] => none
  | (k', v) :: rest => if k' == k then some v else lookupA k rest

/-- The `batch_fetch` loop over the urls, with the 1-based index `idx` of
`enumerate(urls, 1)` and the accumulated results dict. -/
def batchGo (env : BatchEnv) (outputDir : List Char) (delay : ℚ)
    (maxRetries : Nat) (skipExisting : Bool) (total : Nat) :
    Nat → List (List Char) → List (List Char × Option (List Char)) →
      List (List Char × Option (List Char)) × List BEv
  | _, [], acc => (acc, [])
  | idx, url :: rest, acc =>
    let p := processVideo env outputDir delay maxRetries skipExisting url (idx = total)
    let acc' :=
      match p.1 with
      | none => acc
      | some out => upsert url out acc
    let q := batchGo env outputDir delay maxRetries skipExisting total (idx + 1) rest acc'
    (q.1, p.2 ++ q.2)

/-- Model of `batch_fetch` (lines 544-634): the results dict (as an ordered
association list) together with the trace of attempts, sleeps and skips. -/
def batch_fetch (env : BatchEnv) (urls : List (List Char)) (outputDir : List Char)
    (delay : ℚ) (maxRetries : Nat) (skipExisting : Bool) :
    List (List Char × Option (List Char)) × List BEv :=
  batchGo env outputDir delay maxRetries skipExisting urls.length 1 urls []

/-- Model of `is_playlist_url` (lines 223-225). -/
def is_playlist_url (url : List Char) : Bool :=
  containsSub url ("list=".toList) || containsSub url ("/playlist?".toList)

/-- Parsed CLI arguments of `main` (lines 676-729). -/
structure CliArgs where
  url : List Char
  output : Option (List Char)
  timestamps : Bool
  language : List Char
  no_formatting : Bool
  delay : ℚ
  max_retries : Nat
  use_playwright_fallback : Bool

/-- Worlds touched by `main`: the API library, the browser, the batch oracle
and the playlist lookup (`fetch_playlist_videos`). -/
structure MainEnv where
  api : ApiEnv
  pw : PwEnv
  batch : BatchEnv
  playlist_videos : Except (List Char) (List (List Char))

/-- Model of the dispatch in `main` (lines 731-775): playlist mode, or
save-to-file mode, or the print-to-stdout mode which calls the API fetcher
`fetch_transcript` directly (the comment on line 764 reads "API only, no
fallback for stdout").  Returns the process exit code and the event trace;
the inner events of the playlist branch live at the `BEv` level and are not
repeated here. -/
def mainRun (env : MainEnv) (args : CliArgs) : Nat × List TopEv :=
  if is_playlist_url args.url then
    match env.playlist_videos with
    | .error _ => (1, [TopEv.batchMode])
    | .ok urls =>
      let _ := batch_fetch env.batch urls
        (match args.output with | some o => o | none => "transcripts".toList)
        args.delay args.max_retries true
      (0, [TopEv.batchMode])
  else
    match args.output with
    | some out =>
      let r := save_transcript env.api env.pw args.url out args.timestamps
        args.language args.use_playwright_fallback
      (match r.1 with | .ok _ => 0 | .error _ => 1, r.2)
    | none =>
      match fetch_transcript env.api args.url args.timestamps args.language
          (!args.no_formatting) with
      | .ok md => (0, [TopEv.apiAttempt, TopEv.stdout md])
      | .error _ => (1, [TopEv.apiAttempt])

end YT

namespace YT

theorem paraStep_no_flush (st : ParaState) (s : Snippet)
    (h : ¬ 100 < (joinBlank (st.buf ++ [pyStrip s.text])).length) :
    paraStep st s = (⟨st.buf ++ [pyStrip s.text], s.start + s.duration⟩, []) := by
  unfold paraStep
  rw [if_neg (fun hc => h hc.2)]

theorem paraStep_flush_sentence (st : ParaState) (s : Snippet)
    (h1 : endsSentence (pyStrip s.text) = true)
    (h2 : 100 < (joinBlank (st.buf ++ [pyStrip s.text])).length) :
    paraStep st s =
      (⟨[], s.start + s.duration⟩, [joinBlank (st.buf ++ [pyStrip s.text]) ++ ['\n']]) := by
  unfold paraStep
  rw [if_pos ⟨Or.inr h1, h2⟩]

/-- Third example snippet text of spec §8 (109 characters). -/
def exText3 : List Char :=
  "Next part starts here and keeps going past one hundred characters of total accumulated text to force a flush.".toList

/-- The three example segments of spec §8. -/
def exSnips : List Snippet :=
  [⟨0, 1, ("Hello".toList)⟩, ⟨1, 1, ("world.".toList)⟩, ⟨5, 1, exText3⟩]

/-- Expected paragraph output for the §8 example: one paragraph holding all
three texts, flushed at the third segment. -/
def exExpected : List Char :=
  "Hello world. Next part starts here and keeps going past one hundred characters of total accumulated text to force a flush.\n".toList

set_option maxRecDepth 100000 in
/-- C2: in paragraph mode (API source) the buffer is flushed exactly when
(the start gap exceeds 2.0 seconds or the text ends in '.', '!' or '?') and
the joined buffer exceeds 100 characters; the remaining buffer is always
flushed at the end; the §8 example produces exactly one paragraph, broken at
the sentence-ending + length-threshold condition of the third segment. -/
theorem c2_paragraph_flush :
    (∀ (st : ParaState) (s : Snippet),
        (paraStep st s).2 ≠ [] ↔
          ((s.start - st.lastEnd > 2 ∨ endsSentence (pyStrip s.text) = true) ∧
            100 < (joinBlank (st.buf ++ [pyStrip s.text])).length)) ∧
    paragraphBlocks exSnips = [exExpected] ∧
    paragraphBlocks [⟨0, 1, ("Hi".toList)⟩] = [("Hi\n".toList)] := by
  refine ⟨?_, ?_, ?_⟩
  · intro st s
    unfold paraStep
    by_cases hc : ((s.start - st.lastEnd > 2 ∨ endsSentence (pyStrip s.text) = true) ∧
        100 < (joinBlank (st.buf ++ [pyStrip s.text])).length)
    · rw [if_pos hc]; simpa using hc
    · rw [if_neg hc]; simpa using hc
  · have e1 : paraStep ⟨[], 0⟩ ⟨0, 1, ("Hello".toList)⟩ =
        (⟨[] ++ [pyStrip ("Hello".toList)], (0 : ℚ) + 1⟩, []) :=
      paraStep_no_flush _ _ (by decide)
    have e2 : paraStep ⟨[] ++ [pyStrip ("Hello".toList)], (0 : ℚ) + 1⟩
        ⟨1, 1, ("world.".toList)⟩ =
        (⟨([] ++ [pyStrip ("Hello".toList)]) ++ [pyStrip ("world.".toList)], (1 : ℚ) + 1⟩, []) :=
      paraStep_no_flush _ _ (by decide)
    have e3 : paraStep ⟨([] ++ [pyStrip ("Hello".toList)]) ++ [pyStrip ("world.".toList)],
        (1 : ℚ) + 1⟩ ⟨5, 1, exText3⟩ =
        (⟨[], (5 : ℚ) + 1⟩,
         [joinBlank ((([] ++ [pyStrip ("Hello".toList)]) ++ [pyStrip ("world.".toList)]) ++
            [pyStrip exText3]) ++ ['\n']]) :=
      paraStep_flush_sentence _ _ (by decide) (by decide)
    unfold paragraphBlocks exSnips
    rw [paraFold, e1]
    rw [show ((⟨[] ++ [pyStrip ("Hello".toList)], (0 : ℚ) + 1⟩, ([] : List (List Char))) :
        ParaState × List (List Char)).1 = ⟨[] ++ [pyStrip ("Hello".toList)], (0 : ℚ) + 1⟩ from rfl]
    rw [paraFold, e2]
    rw [show ((⟨([] ++ [pyStrip ("Hello".toList)]) ++ [pyStrip ("world.".toList)], (1 : ℚ) + 1⟩,
        ([] : List (List Char))) : ParaState × List (List Char)).1 =
        ⟨([] ++ [pyStrip ("Hello".toList)]) ++ [pyStrip ("world.".toList)], (1 : ℚ) + 1⟩ from rfl]
    rw [paraFold, e3, paraFold]
    decide
  · have e1 : paraStep ⟨[], 0⟩ ⟨0, 1, ("Hi".toList)⟩ =
        (⟨[] ++ [pyStrip ("Hi".toList)], (0 : ℚ) + 1⟩, []) :=
      paraStep_no_flush _ _ (by decide)
    unfold paragraphBlocks
    rw [paraFold, e1]
    rw [show ((⟨[] ++ [pyStrip ("Hi".toList)], (0 : ℚ) + 1⟩, ([] : List (List Char))) :
        ParaState × List (List Char)).1 = ⟨[] ++ [pyStrip ("Hi".toList)], (0 : ℚ) + 1⟩ from rfl]
    rw [paraFold]
    decide

/-- C3 (code bug): Python's `re.match(r'^[a-zA-Z0-9_-]{11}$', url)` also
matches when `url` is 11 ID characters followed by a trailing newline,
because `$` matches just before a final newline.  On the malformed
12-character input `"abcdefghijk\n"` — which matches none of the four
recognized patterns as the spec states them (it is not a watch/youtu.be/
embed URL and is not exactly 11 ID characters) — `extract_video_id` returns
the whole string, newline included, as a garbage ID instead of failing. -/
theorem c3_trailing_newline_garbage_id :
    extract_video_id ("abcdefghijk\n".toList) = some ("abcdefghijk\n".toList) := by
  decide

/-- C6: the Playwright fetcher never leaks a live browser: after the trace of
every possible run (success, transcript-control-not-found, no-segments,
navigation or extraction error, Playwright unavailable, invalid URL) the
browser-open flag is false, and whenever a browser was launched the trace
also records the driver shutdown of the `with sync_playwright()` exit. -/
theorem c6_browser_always_closed (env : PwEnv) (url : List Char) (ts : Bool) :
    openAfter (fetch_transcript_playwright env url ts).2 = false ∧
      (PwEv.launch ∈ (fetch_transcript_playwright env url ts).2 →
        PwEv.stopDriver ∈ (fetch_transcript_playwright env url ts).2) := by
  rcases env with ⟨avail, nav, clicked, segs⟩
  cases avail
  · simp [fetch_transcript_playwright, openAfter]
  · unfold fetch_transcript_playwright
    cases hx : extract_video_id url with
    | none => simp [openAfter]
    | some vid =>
      cases hv : vid.isEmpty
      · cases nav with
        | error e => simp [hv, openAfter]
        | ok u =>
          cases clicked
          · simp [hv, openAfter]
          · cases segs with
            | error e => simp [hv, openAfter]
            | ok ss =>
              cases hss : ss.isEmpty <;> simp [hv, hss, openAfter]
      · simp [hv, openAfter]

/-- Concrete Playwright world for the success path. -/
def pwEnvOk : PwEnv :=
  { available := true
    nav := .ok ()
    clicked := true
    segments := .ok [(("0:00".toList), ("Hello there.".toList))] }

theorem c6_browser_always_closed_witness :
    openAfter (fetch_transcript_playwright pwEnvOk ("dQw4w9WgXcQ".toList) false).2 = false ∧
      PwEv.stopDriver ∈ (fetch_transcript_playwright pwEnvOk ("dQw4w9WgXcQ".toList) false).2 :=
  ⟨(c6_browser_always_closed pwEnvOk ("dQw4w9WgXcQ".toList) false).1,
   (c6_browser_always_closed pwEnvOk ("dQw4w9WgXcQ".toList) false).2 (by decide)⟩

end YT

namespace YT

theorem tw_append_stop (p : Char → Bool) (l r : List Char) (h : l.all p = false) :
    (l ++ r).takeWhile p = l.takeWhile p ∧ (l ++ r).dropWhile p = l.dropWhile p ++ r := by
  induction l with
  | nil => simp at h
  | cons c cs ih =>
    by_cases hc : p c
    · have h2 : cs.all p = false := by
        cases hall : cs.all p
        · rfl
        · rw [List.all_cons, hall] at h
          rw [hc] at h
          simp at h
      rcases ih h2 with ⟨h3, h4⟩
      simp [List.takeWhile_cons, List.dropWhile_cons, hc, h3, h4]
    · simp [List.takeWhile_cons, List.dropWhile_cons, hc]

theorem tw_append_all (p : Char → Bool) (l r : List Char) (h : l.all p = true) :
    (l ++ r).takeWhile p = l ++ r.takeWhile p ∧ (l ++ r).dropWhile p = r.dropWhile p := by
  induction l with
  | nil => simp
  | cons c cs ih =>
    rw [List.all_cons] at h
    rcases Bool.and_eq_true_iff.mp h with ⟨h1, h2⟩
    rcases ih h2 with ⟨h3, h4⟩
    simp [List.takeWhile_cons, List.dropWhile_cons, h1, h3, h4]

theorem mem_dropWhileL (p : Char → Bool) (l : List Char) (c : Char)
    (h : c ∈ l.dropWhile p) : c ∈ l := by
  induction l with
  | nil => simp at h
  | cons a as ih =>
    rw [List.dropWhile_cons] at h
    by_cases hp : p a
    · rw [if_pos hp] at h
      exact List.mem_cons_of_mem _ (ih h)
    · rw [if_neg hp] at h
      exact h

theorem mem_dropEndWhile (p : Char → Bool) (l : List Char) (c : Char)
    (h : c ∈ dropEndWhile p l) : c ∈ l := by
  unfold dropEndWhile at h
  rw [List.mem_reverse] at h
  have := mem_dropWhileL p l.reverse c h
  rwa [List.mem_reverse] at this

theorem mem_stripDotSpace (l : List Char) (c : Char)
    (h : c ∈ stripDotSpace l) : c ∈ l := by
  unfold stripDotSpace at h
  exact mem_dropWhileL _ _ _ (mem_dropEndWhile _ _ _ h)

theorem mem_collapseWsGo (b : Bool) (l : List Char) (c : Char)
    (h : c ∈ collapseWsGo b l) : c ∈ l ∨ c = ' ' := by
  induction l generalizing b with
  | nil => simp [collapseWsGo] at h
  | cons a as ih =>
    rw [collapseWsGo] at h
    by_cases hp : pyIsSpace a
    · rw [if_pos hp] at h
      cases b with
      | true =>
        rcases ih true h with h2 | h2
        · exact Or.inl (List.mem_cons_of_mem _ h2)
        · exact Or.inr h2
      | false =>
        simp only [Bool.false_eq_true, if_neg] at h
        rcases List.mem_cons.mp h with h2 | h2
        · exact Or.inr h2
        · rcases ih true h2 with h3 | h3
          · exact Or.inl (List.mem_cons_of_mem _ h3)
          · exact Or.inr h3
    · rw [if_neg hp] at h
      rcases List.mem_cons.mp h with h2 | h2
      · exact Or.inl (h2 ▸ List.mem_cons_self _ _)
      · rcases ih false h2 with h3 | h3
        · exact Or.inl (List.mem_cons_of_mem _ h3)
        · exact Or.inr h3

theorem mem_sanitizeClean (title : List Char) (c : Char)
    (h : c ∈ sanitizeClean title) : invalidFileChar c = false := by
  unfold sanitizeClean at h
  rcases mem_collapseWsGo false _ c (mem_stripDotSpace _ c h) with h2 | h2
  · exact (Bool.not_eq_true' _).mp (List.mem_filter.mp h2).2
  · subst h2; decide

theorem mem_cutAtLastBlank (l : List Char) (c : Char)
    (h : c ∈ cutAtLastBlank l) : c ∈ l := by
  unfold cutAtLastBlank at h
  cases hm : l.reverse.dropWhile (fun c => c != ' ') with
  | nil => rw [hm] at h; exact h
  | cons d t =>
    rw [hm] at h
    rw [List.mem_reverse] at h
    have h2 : c ∈ l.reverse.dropWhile (fun c => c != ' ') := by
      rw [hm]; exact List.mem_cons_of_mem _ h
    have := mem_dropWhileL _ _ _ h2
    rwa [List.mem_reverse] at this

theorem length_dropWhileL_le (p : Char → Bool) (l : List Char) :
    (l.dropWhile p).length ≤ l.length := by
  induction l with
  | nil => exact Nat.le_refl _
  | cons a as ih =>
    rw [List.dropWhile_cons]
    by_cases hp : p a
    · rw [if_pos hp]
      exact Nat.le_trans ih (by simp)
    · rw [if_neg hp]

theorem length_cutAtLastBlank_le (l : List Char) :
    (cutAtLastBlank l).length ≤ l.length := by
  unfold cutAtLastBlank
  cases hm : l.reverse.dropWhile (fun c => c != ' ') with
  | nil => exact Nat.le_refl _
  | cons d t =>
    have h1 : (d :: t).length ≤ l.reverse.length := by
      rw [← hm]; exact length_dropWhileL_le _ _
    rw [List.length_reverse] at h1
    simp only [List.length_reverse]
    simp only [List.length_cons] at h1
    omega

theorem cutAtLastBlank_concat (pre post : List Char) (h : ' ' ∉ post) :
    cutAtLastBlank (pre ++ ' ' :: post) = pre := by
  unfold cutAtLastBlank
  have hrev : (pre ++ ' ' :: post).reverse = post.reverse ++ ' ' :: pre.reverse := by
    rw [List.reverse_append, List.reverse_cons, List.append_assoc]
    simp
  rw [hrev]
  have hall : post.reverse.all (fun c => c != ' ') = true := by
    rw [List.all_eq_true]
    intro c hc
    rw [List.mem_reverse] at hc
    simp only [bne_iff_ne, ne_eq]
    intro hcc
    exact h (hcc ▸ hc)
  rw [(tw_append_all (fun c => c != ' ') post.reverse (' ' :: pre.reverse) hall).2,
    List.dropWhile_cons]
  rw [if_neg (by simp)]
  simp

/-- C9: `sanitize_filename` strips exactly the characters `<>:"/\|?*`,
collapses whitespace, trims leading/trailing dots and spaces, truncates a
too-long result at the last space before the 100-character limit, and
returns "untitled" for an empty result; in particular
`sanitize_filename('A/B:C*D "Title"') = "ABCD Title"`.  Stated as: the
literal example, a 100-character bound, nonemptiness, absence of the
stripped characters, the truncation-at-last-space rule, and the "untitled"
default. -/
theorem c9_sanitize_filename :
    sanitize_filename ("A/B:C*D \"Title\"".toList) 100 = ("ABCD Title".toList) ∧
    (∀ title : List Char, (sanitize_filename title 100).length ≤ 100) ∧
    (∀ title : List Char, sanitize_filename title 100 ≠ []) ∧
    (∀ title : List Char, ∀ c ∈ sanitize_filename title 100, invalidFileChar c = false) ∧
    (∀ title pre post : List Char, 100 < (sanitizeClean title).length →
      (sanitizeClean title).take 100 = pre ++ ' ' :: post → ' ' ∉ post →
      sanitize_filename title 100 = if pre.isEmpty then ("untitled".toList) else pre) ∧
    (∀ title : List Char, sanitizeClean title = [] →
      sanitize_filename title 100 = ("untitled".toList)) := by
  refine ⟨by decide, ?_, ?_, ?_, ?_, ?_⟩
  · intro title
    simp only [sanitize_filename]
    by_cases h : 100 < (sanitizeClean title).length
    · rw [if_pos h]
      by_cases he : (cutAtLastBlank ((sanitizeClean title).take 100)).isEmpty
      · rw [if_pos he]; decide
      · rw [if_neg he]
        calc (cutAtLastBlank ((sanitizeClean title).take 100)).length
            ≤ ((sanitizeClean title).take 100).length := length_cutAtLastBlank_le _
          _ ≤ 100 := List.length_take_le _ _
    · rw [if_neg h]
      by_cases he : (sanitizeClean title).isEmpty
      · rw [if_pos he]; decide
      · rw [if_neg he]
        omega
  · intro title
    simp only [sanitize_filename]
    by_cases h : 100 < (sanitizeClean title).length
    · rw [if_pos h]
      by_cases he : (cutAtLastBlank ((sanitizeClean title).take 100)).isEmpty
      · rw [if_pos he]; decide
      · rw [if_neg he]
        exact fun hnil => (by simp [hnil] at he)
    · rw [if_neg h]
      by_cases he : (sanitizeClean title).isEmpty
      · rw [if_pos he]; decide
      · rw [if_neg he]
        exact fun hnil => (by simp [hnil] at he)
  · intro title c hc
    have huntitled : ∀ x ∈ ("untitled".toList), invalidFileChar x = false := by decide
    simp only [sanitize_filename] at hc
    by_cases h : 100 < (sanitizeClean title).length
    · rw [if_pos h] at hc
      by_cases he : (cutAtLastBlank ((sanitizeClean title).take 100)).isEmpty
      · rw [if_pos he] at hc
        exact huntitled c hc
      · rw [if_neg he] at hc
        exact mem_sanitizeClean title c
          (List.take_subset 100 _ (mem_cutAtLastBlank _ c hc))
    · rw [if_neg h] at hc
      by_cases he : (sanitizeClean title).isEmpty
      · rw [if_pos he] at hc
        exact huntitled c hc
      · rw [if_neg he] at hc
        exact mem_sanitizeClean title c hc
  · intro title pre post h100 hdec hpost
    simp only [sanitize_filename]
    rw [if_pos h100, hdec, cutAtLastBlank_concat pre post hpost]
  · intro title hclean
    simp only [sanitize_filename]
    rw [hclean]
    simp

/-- Concrete 111-character title used to exercise the truncation rule. -/
def titleW : List Char := List.replicate 50 'a' ++ ' ' :: List.replicate 60 'b'

theorem c9_sanitize_filename_witness :
    sanitize_filename titleW 100 =
      (if (List.replicate 50 'a').isEmpty then ("untitled".toList)
       else List.replicate 50 'a') ∧
    sanitize_filename ("...".toList) 100 = ("untitled".toList) :=
  ⟨c9_sanitize_filename.2.2.2.2.1 titleW (List.replicate 50 'a') (List.replicate 49 'b')
      (by decide) (by decide) (by decide),
   c9_sanitize_filename.2.2.2.2.2 ("...".toList) (by decide)⟩

end YT

namespace YT

theorem retryGo_first_attempt (env : BatchEnv) (url file : List Char) (delay : ℚ)
    (mR : Nat) (isLast : Bool) (fuel k : Nat) (h : 1 ≤ fuel) :
    BEv.attempt url k ∈ (retryGo env url file delay mR isLast k fuel).2 := by
  cases fuel with
  | zero => omega
  | succ f =>
    simp only [retryGo]
    cases hs : env.save url k with
    | none => simp
    | some m =>
      by_cases hrl : isRateLimitMsg m = true
      · by_cases hk : k = mR - 1
        · simp [hrl, hk]
        · simp [hrl, hk]
      · simp [(Bool.not_eq_true _).mp hrl]

theorem retryGo_isSome (env : BatchEnv) (url file : List Char) (delay : ℚ)
    (mR : Nat) (isLast : Bool) :
    ∀ fuel k, 1 ≤ fuel → k + fuel = mR →
      ((retryGo env url file delay mR isLast k fuel).1).isSome = true := by
  intro fuel
  induction fuel with
  | zero => intro k h1 h2; omega
  | succ f ih =>
    intro k h1 h2
    simp only [retryGo]
    cases hs : env.save url k with
    | none => simp
    | some m =>
      by_cases hrl : isRateLimitMsg m = true
      · by_cases hk : k = mR - 1
        · simp [hrl, hk]
        · have hf : 1 ≤ f := by omega
          have := ih (k + 1) hf (by omega)
          simp [hrl, hk, this]
      · simp [(Bool.not_eq_true _).mp hrl]

theorem processVideo_isSome (env : BatchEnv) (dir : List Char) (delay : ℚ)
    (mR : Nat) (skipE : Bool) (url : List Char) (isLast : Bool) (h : 1 ≤ mR) :
    ((processVideo env dir delay mR skipE url isLast).1).isSome = true := by
  cases hx : extract_video_id url with
  | none => simp [processVideo, hx]
  | some vid =>
    cases hv : vid.isEmpty
    case true => simp [processVideo, hx, hv]
    have hbody : processVideo env dir delay mR skipE url isLast =
        (if (skipE &&
              (match env.file_size (outputFileFor env dir url vid) with
               | some n => decide (100 < n)
               | none => false)) = true then
           (some (some (outputFileFor env dir url vid)), [BEv.skip url])
         else retryGo env url (outputFileFor env dir url vid) delay mR isLast 0 mR) := by
      simp only [processVideo, hx]
      rw [hv]
      rfl
    rw [hbody]
    by_cases hsk : (skipE &&
        (match env.file_size (outputFileFor env dir url vid) with
         | some n => decide (100 < n)
         | none => false)) = true
    · rw [if_pos hsk]
      rfl
    · rw [if_neg hsk]
      exact retryGo_isSome env url _ delay mR isLast mR 0 h (by omega)

theorem lookupA_upsert_self (k : List Char) (v : Option (List Char))
    (acc : List (List Char × Option (List Char))) :
    lookupA k (upsert k v acc) = some v := by
  induction acc with
  | nil => simp [upsert, lookupA]
  | cons p rest ih =>
    rcases p with ⟨k', v'⟩
    rw [upsert]
    by_cases hk : k' == k
    · rw [if_pos hk, lookupA]
      simp
    · rw [if_neg hk, lookupA, if_neg hk]
      exact ih

theorem lookupA_upsert_isSome (k k' : List Char) (v : Option (List Char))
    (acc : List (List Char × Option (List Char)))
    (h : (lookupA k acc).isSome = true) :
    (lookupA k (upsert k' v acc)).isSome = true := by
  induction acc with
  | nil => simp [lookupA] at h
  | cons p rest ih =>
    rcases p with ⟨a, b⟩
    rw [lookupA] at h
    rw [upsert]
    by_cases ha : a == k'
    · rw [if_pos ha]
      rw [lookupA]
      by_cases hkk : k' == k
      · rw [if_pos hkk]; simp
      · rw [if_neg hkk]
        by_cases hak : a == k
        · exact absurd (beq_iff_eq.mpr ((beq_iff_eq.mp ha) ▸ beq_iff_eq.mp hak)) hkk
        · rw [if_neg hak] at h
          exact h
    · rw [if_neg ha]
      rw [lookupA]
      by_cases hak : a == k
      · rw [if_pos hak]; simp
      · rw [if_neg hak]
        rw [if_neg hak] at h
        exact ih h

theorem batchGo_preserves (env : BatchEnv) (dir : List Char) (delay : ℚ)
    (mR : Nat) (skipE : Bool) (total : Nat) :
    ∀ (rest : List (List Char)) (idx : Nat) acc (url : List Char),
      (lookupA url acc).isSome = true →
      (lookupA url (batchGo env dir delay mR skipE total idx rest acc).1).isSome = true := by
  intro rest
  induction rest with
  | nil => intro idx acc url h; simpa [batchGo] using h
  | cons u us ih =>
    intro idx acc url h
    simp only [batchGo]
    cases hp : (processVideo env dir delay mR skipE u (idx = total)).1 with
    | none => simpa [hp] using ih (idx + 1) acc url h
    | some out =>
      simpa [hp] using ih (idx + 1) (upsert u out acc) url
        (lookupA_upsert_isSome url u out acc h)

theorem batchGo_mem (env : BatchEnv) (dir : List Char) (delay : ℚ)
    (mR : Nat) (skipE : Bool) (total : Nat) (hmr : 1 ≤ mR) :
    ∀ (rest : List (List Char)) (idx : Nat) acc (url : List Char), url ∈ rest →
      (lookupA url (batchGo env dir delay mR skipE total idx rest acc).1).isSome = true := by
  intro rest
  induction rest with
  | nil => intro idx acc url h; simp at h
  | cons u us ih =>
    intro idx acc url h
    rcases List.mem_cons.mp h with h2 | h2
    · subst h2
      simp only [batchGo]
      have hsome := processVideo_isSome env dir delay mR skipE url (idx = total) hmr
      cases hp : (processVideo env dir delay mR skipE url (idx = total)).1 with
      | none => rw [hp] at hsome; simp at hsome
      | some out =>
        have hself : (lookupA url (upsert url out acc)).isSome = true := by
          rw [lookupA_upsert_self]; rfl
        simpa [hp] using batchGo_preserves env dir delay mR skipE total us (idx + 1)
          (upsert url out acc) url hself
    · simp only [batchGo]
      cases hp : (processVideo env dir delay mR skipE u (idx = total)).1 with
      | none => simpa [hp] using ih (idx + 1) acc url h2
      | some out => simpa [hp] using ih (idx + 1) (upsert u out acc) url h2

/-- Batch world in which the first index never exists on disk, titles are
unavailable and saving always fails with a rate-limit-flavored message. -/
def envAllBlocked : BatchEnv :=
  { title := fun _ => none
    file_size := fun _ => none
    save := fun _ _ => some ("YouTube is blocking requests from your IP".toList) }

/-- Batch world in which every save succeeds at once. -/
def envAllOk : BatchEnv :=
  { title := fun _ => none
    file_size := fun _ => none
    save := fun _ _ => none }

/-- C7 counterexample: with `max_retries = 0` the retry loop body of
`batch_fetch` never runs and `results[url]` is never assigned, so the
returned mapping has no entry at all for a perfectly valid input URL —
the claim's "an entry for every input URL" fails as stated. -/
theorem c7_counterexample_max_retries_zero :
    lookupA ("dQw4w9WgXcQ".toList)
      (batch_fetch envAllOk [("dQw4w9WgXcQ".toList)] ("out".toList) 1 0 true).1 = none := by
  decide

/-- C7 (amended): provided `max_retries ≥ 1` (the CLI default is 3), the
mapping returned by `batch_fetch` has an entry for every input URL — its
output path or `None` — and a per-video failure never aborts the batch:
every URL of the list, before and after a failing one, still gets its
entry. -/
theorem c7_batch_entry_for_every_url (env : BatchEnv) (urls : List (List Char))
    (dir : List Char) (delay : ℚ) (mR : Nat) (skipE : Bool) (hmr : 1 ≤ mR) :
    ∀ url ∈ urls,
      (lookupA url (batch_fetch env urls dir delay mR skipE).1).isSome = true := by
  intro url hmem
  exact batchGo_mem env dir delay mR skipE urls.length hmr urls 1 [] url hmem

theorem c7_batch_entry_for_every_url_witness :
    (lookupA ("dQw4w9WgXcQ".toList)
      (batch_fetch envAllBlocked
        [("dQw4w9WgXcQ".toList), ("https://youtu.be/AAAAAAAAAAA".toList)]
        ("out".toList) 1 3 true).1).isSome = true :=
  c7_batch_entry_for_every_url envAllBlocked
    [("dQw4w9WgXcQ".toList), ("https://youtu.be/AAAAAAAAAAA".toList)]
    ("out".toList) 1 3 true (by decide) ("dQw4w9WgXcQ".toList) (by decide)

/-- C5: with `skip_existing` set, for a video whose extracted ID is nonempty
(it passes the `if not video_id:` guard), an existing output file strictly
larger than 100 bytes short-circuits the video — the existing path is
recorded and no fetch attempt happens — while a file of at most 100 bytes
is fetched again through the retry loop. -/
theorem c5_skip_existing (env : BatchEnv) (outputDir url vid : List Char)
    (delay : ℚ) (mR : Nat) (isLast : Bool) (n : Nat)
    (hvid : extract_video_id url = some vid)
    (hne : vid.isEmpty = false)
    (hsize : env.file_size (outputFileFor env outputDir url vid) = some n) :
    (100 < n →
      processVideo env outputDir delay mR true url isLast =
        (some (some (outputFileFor env outputDir url vid)), [BEv.skip url])) ∧
    (n ≤ 100 →
      processVideo env outputDir delay mR true url isLast =
        retryGo env url (outputFileFor env outputDir url vid) delay mR isLast 0 mR) ∧
    (n ≤ 100 → 1 ≤ mR →
      BEv.attempt url 0 ∈ (processVideo env outputDir delay mR true url isLast).2) := by
  have hbody : processVideo env outputDir delay mR true url isLast =
      (if (true && (match env.file_size (outputFileFor env outputDir url vid) with
            | some n => decide (100 < n)
            | none => false)) = true then
         (some (some (outputFileFor env outputDir url vid)), [BEv.skip url])
       else retryGo env url (outputFileFor env outputDir url vid) delay mR isLast 0 mR) := by
    simp only [processVideo, hvid]
    rw [hne]
    rfl
  have heq2 : n ≤ 100 → processVideo env outputDir delay mR true url isLast =
      retryGo env url (outputFileFor env outputDir url vid) delay mR isLast 0 mR := by
    intro hn
    rw [hbody, hsize]
    have : ¬ (100 < n) := by omega
    simp [this]
  refine ⟨?_, heq2, ?_⟩
  · intro hn
    rw [hbody, hsize]
    simp [hn]
  · intro hn hmr
    rw [heq2 hn]
    exact retryGo_first_attempt env url _ delay mR isLast mR 0 hmr

/-- Batch world with an existing 150-byte output file. -/
def envSize150 : BatchEnv :=
  { title := fun _ => none
    file_size := fun _ => some 150
    save := fun _ _ => none }

/-- Batch world with an existing 50-byte output file and a failing save. -/
def envSize50 : BatchEnv :=
  { title := fun _ => none
    file_size := fun _ => some 50
    save := fun _ _ => some ("boom".toList) }

theorem c5_skip_existing_witness :
    processVideo envSize150 ("out".toList) 1 3 true ("dQw4w9WgXcQ".toList) true =
      (some (some (outputFileFor envSize150 ("out".toList) ("dQw4w9WgXcQ".toList)
        ("dQw4w9WgXcQ".toList))), [BEv.skip ("dQw4w9WgXcQ".toList)]) ∧
    BEv.attempt ("dQw4w9WgXcQ".toList) 0 ∈
      (processVideo envSize50 ("out".toList) 1 3 true ("dQw4w9WgXcQ".toList) true).2 :=
  ⟨(c5_skip_existing envSize150 ("out".toList) ("dQw4w9WgXcQ".toList)
      ("dQw4w9WgXcQ".toList) 1 3 true 150 (by decide) rfl rfl).1 (by omega),
   (c5_skip_existing envSize50 ("out".toList) ("dQw4w9WgXcQ".toList)
      ("dQw4w9WgXcQ".toList) 1 3 true 50 (by decide) rfl rfl).2.2 (by omega) (by omega)⟩

end YT

namespace YT

theorem retryGo_all_ratelimited (env : BatchEnv) (url file : List Char)
    (delay : ℚ) (mR : Nat) (isLast : Bool) :
    ∀ fuel k, k + fuel = mR → 1 ≤ fuel →
      (∀ j, k ≤ j → j < mR → ∃ m, env.save url j = some m ∧ isRateLimitMsg m = true) →
      retryGo env url file delay mR isLast k fuel =
        (some none, (List.range' k fuel).bind fun j =>
          [BEv.attempt url j, BEv.sleep (delay * 2 ^ j)]) := by
  intro fuel
  induction fuel with
  | zero => intro k hsum hf; omega
  | succ f ih =>
    intro k hsum hf hall
    obtain ⟨m, hm, hrl⟩ := hall k (Nat.le_refl k) (by omega)
    simp only [retryGo, hm, hrl, if_true]
    cases f with
    | zero =>
      have hk : k = mR - 1 := by omega
      rw [if_pos hk]
      simp [List.range']
    | succ f2 =>
      have hk : ¬ (k = mR - 1) := by omega
      rw [if_neg hk]
      rw [ih (k + 1) (by omega) (by omega) (fun j hj1 hj2 => hall j (by omega) hj2)]
      simp [List.range']

theorem retryGo_step_none (env : BatchEnv) (url file : List Char) (delay : ℚ)
    (mR : Nat) (isLast : Bool) (f k : Nat) (hs : env.save url k = none) :
    retryGo env url file delay mR isLast k (f + 1) =
      (some (some file),
       BEv.attempt url k :: (if isLast then [] else [BEv.sleep delay])) := by
  simp only [retryGo, hs]

theorem retryGo_step_rl_last (env : BatchEnv) (url file : List Char) (delay : ℚ)
    (mR : Nat) (isLast : Bool) (f k : Nat) (m : List Char)
    (hs : env.save url k = some m) (hrl : isRateLimitMsg m = true)
    (hk : k = mR - 1) :
    retryGo env url file delay mR isLast k (f + 1) =
      (some none, [BEv.attempt url k, BEv.sleep (delay * 2 ^ k)]) := by
  simp only [retryGo, hs, hrl, if_true]
  rw [if_pos hk]

theorem retryGo_step_rl_mid (env : BatchEnv) (url file : List Char) (delay : ℚ)
    (mR : Nat) (isLast : Bool) (f k : Nat) (m : List Char)
    (hs : env.save url k = some m) (hrl : isRateLimitMsg m = true)
    (hk : ¬ (k = mR - 1)) :
    retryGo env url file delay mR isLast k (f + 1) =
      ((retryGo env url file delay mR isLast (k + 1) f).1,
       [BEv.attempt url k, BEv.sleep (delay * 2 ^ k)] ++
         (retryGo env url file delay mR isLast (k + 1) f).2) := by
  simp only [retryGo, hs, hrl, if_true]
  rw [if_neg hk]

theorem retryGo_step_other (env : BatchEnv) (url file : List Char) (delay : ℚ)
    (mR : Nat) (isLast : Bool) (f k : Nat) (m : List Char)
    (hs : env.save url k = some m) (hrl : isRateLimitMsg m = false) :
    retryGo env url file delay mR isLast k (f + 1) =
      (some none, [BEv.attempt url k]) := by
  simp only [retryGo, hs, hrl]
  simp

theorem retryGo_attempt_ratelimited (env : BatchEnv) (url file : List Char)
    (delay : ℚ) (mR : Nat) (isLast : Bool) :
    ∀ fuel k j, BEv.attempt url j ∈ (retryGo env url file delay mR isLast k fuel).2 →
      k ≤ j ∧ (∀ i, k ≤ i → i < j →
        ∃ m, env.save url i = some m ∧ isRateLimitMsg m = true) := by
  intro fuel
  induction fuel with
  | zero => intro k j h; simp [retryGo] at h
  | succ f ih =>
    intro k j h
    cases hs : env.save url k with
    | none =>
      rw [retryGo_step_none env url file delay mR isLast f k hs] at h
      simp only [List.mem_cons] at h
      have hj : j = k := by
        rcases h with h2 | h2
        · simpa using h2
        · cases isLast with
          | true => simp at h2
          | false => simp at h2
      subst hj
      exact ⟨Nat.le_refl _, fun i hi1 hi2 => absurd (Nat.lt_of_le_of_lt hi1 hi2)
        (Nat.lt_irrefl _)⟩
    | some m =>
      by_cases hrl : isRateLimitMsg m = true
      · by_cases hk : k = mR - 1
        · rw [retryGo_step_rl_last env url file delay mR isLast f k m hs hrl hk] at h
          simp only [List.mem_cons] at h
          have hj : j = k := by
            rcases h with h2 | h2
            · simpa using h2
            · simp at h2
          subst hj
          exact ⟨Nat.le_refl _, fun i hi1 hi2 => absurd (Nat.lt_of_le_of_lt hi1 hi2)
            (Nat.lt_irrefl _)⟩
        · rw [retryGo_step_rl_mid env url file delay mR isLast f k m hs hrl hk] at h
          simp only [List.cons_append, List.nil_append, List.mem_cons] at h
          rcases h with h2 | h2 | h3
          · have hj : j = k := by simpa using h2
            subst hj
            exact ⟨Nat.le_refl _, fun i hi1 hi2 => absurd (Nat.lt_of_le_of_lt hi1 hi2)
              (Nat.lt_irrefl _)⟩
          · simp at h2
          · obtain ⟨hle, hint⟩ := ih (k + 1) j h3
            refine ⟨by omega, fun i hi1 hi2 => ?_⟩
            by_cases hik : i = k
            · subst hik; exact ⟨m, hs, hrl⟩
            · exact hint i (by omega) hi2
      · rw [retryGo_step_other env url file delay mR isLast f k m hs
            ((Bool.not_eq_true _).mp hrl)] at h
        simp only [List.mem_cons] at h
        have hj : j = k := by
          rcases h with h2 | h2
          · simpa using h2
          · simp at h2
        subst hj
        exact ⟨Nat.le_refl _, fun i hi1 hi2 => absurd (Nat.lt_of_le_of_lt hi1 hi2)
          (Nat.lt_irrefl _)⟩

/-- C1: in the batch retry loop, an error is retried only when its message
contains "blocking" or "blocked" case-insensitively; any other error ends
the video immediately after attempt 0 with no sleep; when every attempt is
rate-limited, the loop performs attempts `0 .. max_retries-1`, sleeping
`delay * 2^k` directly after failed attempt `k` (hence before attempt
`k+1`), and finally records the video as failed (`results[url] = None`);
with `delay = 1` and `max_retries = 3` the sleeps are 1, 2 and 4 seconds;
and conversely an attempt `k+1` happens only when attempt `k` failed with a
rate-limit-flavored message. -/
theorem c1_retry_backoff (env : BatchEnv) (url file : List Char) (isLast : Bool) :
    (∀ (delay : ℚ) (mR : Nat) (m : List Char), 1 ≤ mR →
      env.save url 0 = some m → isRateLimitMsg m = false →
      retryGo env url file delay mR isLast 0 mR = (some none, [BEv.attempt url 0])) ∧
    (∀ (delay : ℚ) (mR : Nat), 1 ≤ mR →
      (∀ k, k < mR → ∃ m, env.save url k = some m ∧ isRateLimitMsg m = true) →
      retryGo env url file delay mR isLast 0 mR =
        (some none, (List.range mR).bind fun k =>
          [BEv.attempt url k, BEv.sleep (delay * 2 ^ k)])) ∧
    ((∀ k, k < 3 → ∃ m, env.save url k = some m ∧ isRateLimitMsg m = true) →
      retryGo env url file 1 3 isLast 0 3 =
        (some none, [BEv.attempt url 0, BEv.sleep 1, BEv.attempt url 1, BEv.sleep 2,
                     BEv.attempt url 2, BEv.sleep 4])) ∧
    (∀ (delay : ℚ) (mR k : Nat),
      BEv.attempt url (k + 1) ∈ (retryGo env url file delay mR isLast 0 mR).2 →
      ∃ m, env.save url k = some m ∧ isRateLimitMsg m = true) := by
  have hgen : ∀ (delay : ℚ) (mR : Nat), 1 ≤ mR →
      (∀ k, k < mR → ∃ m, env.save url k = some m ∧ isRateLimitMsg m = true) →
      retryGo env url file delay mR isLast 0 mR =
        (some none, (List.range mR).bind fun k =>
          [BEv.attempt url k, BEv.sleep (delay * 2 ^ k)]) := by
    intro delay mR hmr hall
    rw [List.range_eq_range']
    exact retryGo_all_ratelimited env url file delay mR isLast mR 0 (by omega) hmr
      (fun j _ hj2 => hall j hj2)
  refine ⟨?_, hgen, ?_, ?_⟩
  · intro delay mR m hmr hm hrl
    cases mR with
    | zero => omega
    | succ n =>
      simp only [retryGo, hm, hrl]
      simp
  · intro hall
    rw [hgen 1 3 (by omega) hall]
    simp only [List.range, List.range.loop, List.nil_bind, List.cons_bind]
    norm_num
  · intro delay mR k h
    obtain ⟨_, hint⟩ := retryGo_attempt_ratelimited env url file delay mR isLast mR 0 (k + 1) h
    exact hint k (by omega) (by omega)

theorem c1_retry_backoff_witness :
    retryGo envAllBlocked ("dQw4w9WgXcQ".toList) ("out/x.md".toList) 1 3 false 0 3 =
      (some none,
       [BEv.attempt ("dQw4w9WgXcQ".toList) 0, BEv.sleep 1,
        BEv.attempt ("dQw4w9WgXcQ".toList) 1, BEv.sleep 2,
        BEv.attempt ("dQw4w9WgXcQ".toList) 2, BEv.sleep 4]) :=
  (c1_retry_backoff envAllBlocked ("dQw4w9WgXcQ".toList) ("out/x.md".toList) false).2.2.1
    (fun k hk => ⟨("YouTube is blocking requests from your IP".toList), rfl, by decide⟩)

end YT

namespace YT

/-- C4: the Primary Fetcher tries an exact match on the requested language
first; on failure an auto-generated English track; on failure a lookup built
from the first entry of the provider's track list; and when the whole chain
fails, `fetch_transcript` on a video reference (a URL whose extracted video
ID is nonempty, so it passes the `if not video_id:` guard) surfaces the
single aggregated error "Failed to fetch transcript: ...". -/
theorem c4_language_fallback (env : ApiEnv) (language url vid : List Char) (ts pf : Bool) :
    (∀ t, env.find_transcript [language] = .ok t → attemptChain env language = .ok t) ∧
    (∀ e t, env.find_transcript [language] = .error e →
      env.find_generated_transcript [("en".toList)] = .ok t →
      attemptChain env language = .ok t) ∧
    (∀ e1 e2 t0 rest, env.find_transcript [language] = .error e1 →
      env.find_generated_transcript [("en".toList)] = .error e2 →
      env.build_list = .ok (t0 :: rest) →
      attemptChain env language =
        env.find_transcript (t0.language_code.map fun c => [c])) ∧
    (∀ m, extract_video_id url = some vid → vid.isEmpty = false →
      attemptChain env language = .error m →
      fetch_transcript env url ts language pf =
        .error (("Failed to fetch transcript: ".toList) ++ m)) := by
  refine ⟨?_, ?_, ?_, ?_⟩
  · intro t h
    simp only [attemptChain, h]
  · intro e t h1 h2
    simp only [attemptChain, h1, h2]
  · intro e1 e2 t0 rest h1 h2 h3
    simp only [attemptChain, h1, h2, h3]
  · intro m hvid hne hchain
    simp only [fetch_transcript, hvid]
    rw [hne, hchain]
    rfl

/-- An English track, for concrete API worlds. -/
def trackEn : Track := { language_code := ("en".toList), is_generated := false }

/-- API world in which the exact-language lookup always succeeds. -/
def apiEnvOk : ApiEnv :=
  { find_transcript := fun _ => .ok trackEn
    find_generated_transcript := fun _ => .error ("nope".toList)
    build_list := .ok [trackEn]
    fetch_by_language := fun _ => .error ("network".toList) }

/-- API world in which every lookup fails and the track list is empty. -/
def apiEnvFail : ApiEnv :=
  { find_transcript := fun _ => .error ("no transcripts".toList)
    find_generated_transcript := fun _ => .error ("none generated".toList)
    build_list := .ok []
    fetch_by_language := fun _ => .error ("unreachable".toList) }

theorem c4_language_fallback_witness :
    attemptChain apiEnvOk ("fr".toList) = .ok trackEn ∧
    fetch_transcript apiEnvFail ("dQw4w9WgXcQ".toList) false ("fr".toList) true =
      .error (("Failed to fetch transcript: ".toList) ++ ("list index out of range".toList)) :=
  ⟨(c4_language_fallback apiEnvOk ("fr".toList) ("dQw4w9WgXcQ".toList)
      ("dQw4w9WgXcQ".toList) false true).1 trackEn rfl,
   (c4_language_fallback apiEnvFail ("fr".toList) ("dQw4w9WgXcQ".toList)
      ("dQw4w9WgXcQ".toList) false true).2.2.2 ("list index out of range".toList)
      (by decide) rfl rfl⟩

/-- C10: with a non-playlist URL and no output path, `main` goes through the
stdout branch, which calls only the API fetcher `fetch_transcript`: the
Playwright fallback is never invoked on this path — whatever the value of
`--use-playwright-fallback` and whatever failure occurs — the transcript is
printed to stdout on success, and the process exits 1 on failure. -/
theorem c10_stdout_api_only (env : MainEnv) (args : CliArgs)
    (h1 : is_playlist_url args.url = false) (h2 : args.output = none) :
    TopEv.apiAttempt ∈ (mainRun env args).2 ∧
    TopEv.pwAttempt ∉ (mainRun env args).2 ∧
    (∀ md, fetch_transcript env.api args.url args.timestamps args.language
        (!args.no_formatting) = .ok md →
      mainRun env args = (0, [TopEv.apiAttempt, TopEv.stdout md])) ∧
    (∀ e, fetch_transcript env.api args.url args.timestamps args.language
        (!args.no_formatting) = .error e →
      mainRun env args = (1, [TopEv.apiAttempt])) := by
  have hbody : mainRun env args =
      (match fetch_transcript env.api args.url args.timestamps args.language
          (!args.no_formatting) with
       | .ok md => (0, [TopEv.apiAttempt, TopEv.stdout md])
       | .error _ => (1, [TopEv.apiAttempt])) := by
    simp only [mainRun, h1, h2]
    simp
  refine ⟨?_, ?_, ?_, ?_⟩
  · rw [hbody]
    cases fetch_transcript env.api args.url args.timestamps args.language
        (!args.no_formatting) with
    | ok md => simp
    | error e => simp
  · rw [hbody]
    cases fetch_transcript env.api args.url args.timestamps args.language
        (!args.no_formatting) with
    | ok md => simp
    | error e => simp
  · intro md h
    rw [hbody, h]
  · intro e h
    rw [hbody, h]

/-- A fetched English transcript with no snippets. -/
def fetchedEn : FetchedTranscript :=
  { language_code := ("en".toList), is_generated := true, snippets := [] }

/-- API world in which everything succeeds. -/
def apiEnvFull : ApiEnv :=
  { find_transcript := fun _ => .ok trackEn
    find_generated_transcript := fun _ => .ok trackEn
    build_list := .ok [trackEn]
    fetch_by_language := fun _ => .ok fetchedEn }

/-- CLI arguments: a bare video ID, no output path, fallback enabled. -/
def cliArgsW : CliArgs :=
  { url := ("dQw4w9WgXcQ".toList), output := none, timestamps := false,
    language := ("en".toList), no_formatting := true, delay := 2,
    max_retries := 3, use_playwright_fallback := true }

def mainEnvW : MainEnv :=
  { api := apiEnvFull, pw := pwEnvOk, batch := envAllOk, playlist_videos := .ok [] }

theorem c10_stdout_api_only_witness :
    TopEv.apiAttempt ∈ (mainRun mainEnvW cliArgsW).2 ∧
    TopEv.pwAttempt ∉ (mainRun mainEnvW cliArgsW).2 :=
  ⟨(c10_stdout_api_only mainEnvW cliArgsW (by decide) rfl).1,
   (c10_stdout_api_only mainEnvW cliArgsW (by decide) rfl).2.1⟩

end YT

namespace YT

theorem idChar_bne (c d : Char) (hc : isIdChar c = true) (hd : isIdChar d = false) :
    (c != d) = true := by
  cases h : c == d
  · simp [bne, h]
  · exfalso
    rw [beq_iff_eq.mp h] at hc
    rw [hc] at hd
    simp at hd

theorem idChar_beq_false (c d : Char) (hc : isIdChar c = true) (hd : isIdChar d = false) :
    (c == d) = false := by
  have := idChar_bne c d hc hd
  cases h : c == d
  · rfl
  · rw [bne, h] at this; simp at this

theorem allNeOf (id : List Char) (hall : id.all isIdChar = true) (d : Char)
    (hd : isIdChar d = false) : id.all (fun a => a != d) = true := by
  rw [List.all_eq_true] at hall ⊢
  intro c hc
  exact idChar_bne c d (hall c hc) hd

theorem dropWhile_all_nil (p : Char → Bool) (l : List Char) (h : l.all p = true) :
    l.dropWhile p = [] := by
  induction l with
  | nil => rfl
  | cons c cs ih =>
    rw [List.all_cons] at h
    obtain ⟨h1, h2⟩ := Bool.and_eq_true_iff.mp h
    rw [List.dropWhile_cons, if_pos h1]
    exact ih h2

theorem splitFirst_absent (c : Char) (l : List Char)
    (h : l.all (fun a => a != c) = true) : splitFirstChar c l = (l, []) := by
  unfold splitFirstChar dropUntilChar
  rw [dropWhile_all_nil _ _ h]

theorem splitOn_no_sep (sep : Char) (l : List Char)
    (h : l.all (fun a => a != sep) = true) : splitOnCharL sep l = [l] := by
  induction l with
  | nil => rfl
  | cons x xs ih =>
    rw [List.all_cons] at h
    obtain ⟨h1, h2⟩ := Bool.and_eq_true_iff.mp h
    have hx : (x == sep) = false := by
      cases hq : x == sep
      · rfl
      · rw [bne, hq] at h1; simp at h1
    rw [splitOnCharL, if_neg (by simp [hx]), ih h2]

theorem splitOn_append_no_sep (sep : Char) (l r : List Char)
    (hr : r.all (fun a => a != sep) = true) :
    ∃ S x, splitOnCharL sep l = S ++ [x] ∧ splitOnCharL sep (l ++ r) = S ++ [x ++ r] := by
  induction l with
  | nil =>
    exact ⟨[], [], rfl, by simpa using splitOn_no_sep sep r hr⟩
  | cons c cs ih =>
    obtain ⟨S, x, h1, h2⟩ := ih
    by_cases hc : (c == sep) = true
    · refine ⟨[] :: S, x, ?_, ?_⟩
      · rw [splitOnCharL, if_pos hc, h1]; rfl
      · rw [List.cons_append, splitOnCharL, if_pos hc, h2]; rfl
    · cases S with
      | nil =>
        simp only [List.nil_append] at h1 h2
        refine ⟨[], c :: x, ?_, ?_⟩
        · rw [splitOnCharL, if_neg hc, h1]
          rfl
        · rw [List.cons_append, splitOnCharL, if_neg hc, h2]
          rfl
      | cons s S2 =>
        refine ⟨(c :: s) :: S2, x, ?_, ?_⟩
        · rw [splitOnCharL, if_neg hc, h1]; rfl
        · rw [List.cons_append, splitOnCharL, if_neg hc, h2]; rfl

theorem lastD_concat (S : List (List Char)) (x : List Char) : lastD (S ++ [x]) = x := by
  simp [lastD]

theorem drop_two_append (l r : List Char) (h : 2 ≤ l.length) :
    (l ++ r).drop 2 = l.drop 2 ++ r := by
  rw [List.drop_append_eq_append_drop]
  have h0 : 2 - l.length = 0 := by omega
  rw [h0, List.drop_zero]

theorem unquotePlus_eq_self (l : List Char) (hall : l.all isIdChar = true) :
    unquotePlus l = l := by
  induction l with
  | nil => rfl
  | cons c cs ih =>
    rw [List.all_cons] at hall
    obtain ⟨h1, h2⟩ := Bool.and_eq_true_iff.mp hall
    have hplus : c ≠ '+' := by
      intro h
      rw [h] at h1
      exact absurd h1 (by decide)
    have hpct : c ≠ '%' := by
      intro h
      rw [h] at h1
      exact absurd h1 (by decide)
    rw [unquotePlus]
    rotate_left
    all_goals try exact fun h => absurd h hplus
    all_goals try exact fun a b r hq hcs => absurd hq hpct
    rw [ih h2]

theorem startsWithL_not_slashes (id : List Char) (hall : id.all isIdChar = true) :
    startsWithL id ("//".toList) = false := by
  cases id with
  | nil => rfl
  | cons c cs =>
    rw [List.all_cons] at hall
    obtain ⟨h1, _⟩ := Bool.and_eq_true_iff.mp hall
    have hc : (c == '/') = false := idChar_beq_false c '/' h1 (by decide)
    show (c == '/' && startsWithL cs ['/']) = false
    rw [hc]
    rfl

theorem dropSlashes_cons_id (id : List Char) (hlen : id.length = 11)
    (hall : id.all isIdChar = true) :
    ('/' :: id).dropWhile (fun c => c == '/') = id := by
  rw [List.dropWhile_cons, if_pos (by decide)]
  cases id with
  | nil => rfl
  | cons c cs =>
    rw [List.all_cons] at hall
    obtain ⟨h1, _⟩ := Bool.and_eq_true_iff.mp hall
    have hc : (c == '/') = false := idChar_beq_false c '/' h1 (by decide)
    rw [List.dropWhile_cons, if_neg (by simp [hc])]

theorem id_isEmpty_false (id : List Char) (hlen : id.length = 11) :
    id.isEmpty = false := by
  cases id with
  | nil => simp at hlen
  | cons c cs => rfl

end YT

namespace YT

theorem urlparse_watch (id : List Char) (hall : id.all isIdChar = true) :
    urlparseL (("https://www.youtube.com/watch?v=".toList) ++ id) =
      { scheme := ("https".toList), netloc := ("www.youtube.com".toList),
        path := ("/watch".toList), query := ("v=".toList) ++ id, fragment := [] } := by
  have hB : takeUntilChar ':' (("https://www.youtube.com/watch?v=".toList) ++ id) =
      ("https".toList) := by
    unfold takeUntilChar
    rw [(tw_append_stop (fun a => a != ':') ("https://www.youtube.com/watch?v=".toList) id
      (by decide)).1]
    decide
  have hA : dropUntilChar ':' (("https://www.youtube.com/watch?v=".toList) ++ id) =
      ':' :: (("//www.youtube.com/watch?v=".toList) ++ id) := by
    unfold dropUntilChar
    rw [(tw_append_stop (fun a => a != ':') ("https://www.youtube.com/watch?v=".toList) id
      (by decide)).2]
    rw [show ("https://www.youtube.com/watch?v=".toList).dropWhile (fun a => a != ':') =
      ':' :: ("//www.youtube.com/watch?v=".toList) from by decide]
    rw [List.cons_append]
  have hD : startsWithL (("//www.youtube.com/watch?v=".toList) ++ id) ("//".toList) = true := by
    rw [startsWithL_append_left _ _ _ (by decide)]
    decide
  have hE : (("//www.youtube.com/watch?v=".toList) ++ id).drop 2 =
      ("www.youtube.com/watch?v=".toList) ++ id := by
    rw [drop_two_append _ _ (by decide)]
    rw [show ("//www.youtube.com/watch?v=".toList).drop 2 =
      ("www.youtube.com/watch?v=".toList) from by decide]
  have hF : (("www.youtube.com/watch?v=".toList) ++ id).takeWhile (fun c => !(isNetlocEnd c)) =
      ("www.youtube.com".toList) := by
    rw [(tw_append_stop (fun c => !(isNetlocEnd c)) ("www.youtube.com/watch?v=".toList) id
      (by decide)).1]
    decide
  have hG : (("www.youtube.com/watch?v=".toList) ++ id).dropWhile (fun c => !(isNetlocEnd c)) =
      ("/watch?v=".toList) ++ id := by
    rw [(tw_append_stop (fun c => !(isNetlocEnd c)) ("www.youtube.com/watch?v=".toList) id
      (by decide)).2]
    rw [show ("www.youtube.com/watch?v=".toList).dropWhile (fun c => !(isNetlocEnd c)) =
      ("/watch?v=".toList) from by decide]
  have hH : splitFirstChar '#' (("/watch?v=".toList) ++ id) =
      ((("/watch?v=".toList) ++ id), []) := by
    apply splitFirst_absent
    rw [List.all_append]
    rw [allNeOf id hall '#' (by decide)]
    decide
  have hI : splitFirstChar '?' (("/watch?v=".toList) ++ id) =
      (("/watch".toList), ("v=".toList) ++ id) := by
    have hd : dropUntilChar '?' (("/watch?v=".toList) ++ id) =
        '?' :: (("v=".toList) ++ id) := by
      unfold dropUntilChar
      rw [(tw_append_stop (fun a => a != '?') ("/watch?v=".toList) id (by decide)).2]
      rw [show ("/watch?v=".toList).dropWhile (fun a => a != '?') =
        '?' :: ("v=".toList) from by decide]
      rw [List.cons_append]
    have ht : takeUntilChar '?' (("/watch?v=".toList) ++ id) = ("/watch".toList) := by
      unfold takeUntilChar
      rw [(tw_append_stop (fun a => a != '?') ("/watch?v=".toList) id (by decide)).1]
      decide
    unfold splitFirstChar
    rw [hd, ht]
  have hcond : (("https".toList) ≠ [] ∧ (("https".toList).headD ' ').isAlpha ∧
      ("https".toList).all isSchemeCharB) := by decide
  have hlower : ("https".toList).map Char.toLower = ("https".toList) := by decide
  simp only [urlparseL, hA, hB, hD, hE, hF, hG, hH, hI, hlower, if_pos hcond, if_true]

end YT

namespace YT

theorem urlparse_short (id : List Char) (hall : id.all isIdChar = true) :
    urlparseL (("https://youtu.be/".toList) ++ id) =
      { scheme := ("https".toList), netloc := ("youtu.be".toList),
        path := '/' :: id, query := [], fragment := [] } := by
  have hB : takeUntilChar ':' (("https://youtu.be/".toList) ++ id) = ("https".toList) := by
    unfold takeUntilChar
    rw [(tw_append_stop (fun a => a != ':') ("https://youtu.be/".toList) id (by decide)).1]
    decide
  have hA : dropUntilChar ':' (("https://youtu.be/".toList) ++ id) =
      ':' :: (("//youtu.be/".toList) ++ id) := by
    unfold dropUntilChar
    rw [(tw_append_stop (fun a => a != ':') ("https://youtu.be/".toList) id (by decide)).2]
    rw [show ("https://youtu.be/".toList).dropWhile (fun a => a != ':') =
      ':' :: ("//youtu.be/".toList) from by decide]
    rw [List.cons_append]
  have hD : startsWithL (("//youtu.be/".toList) ++ id) ("//".toList) = true := by
    rw [startsWithL_append_left _ _ _ (by decide)]
    decide
  have hE : (("//youtu.be/".toList) ++ id).drop 2 = ("youtu.be/".toList) ++ id := by
    rw [drop_two_append _ _ (by decide)]
    rw [show ("//youtu.be/".toList).drop 2 = ("youtu.be/".toList) from by decide]
  have hF : (("youtu.be/".toList) ++ id).takeWhile (fun c => !(isNetlocEnd c)) =
      ("youtu.be".toList) := by
    rw [(tw_append_stop (fun c => !(isNetlocEnd c)) ("youtu.be/".toList) id (by decide)).1]
    decide
  have hG : (("youtu.be/".toList) ++ id).dropWhile (fun c => !(isNetlocEnd c)) = '/' :: id := by
    rw [(tw_append_stop (fun c => !(isNetlocEnd c)) ("youtu.be/".toList) id (by decide)).2]
    rw [show ("youtu.be/".toList).dropWhile (fun c => !(isNetlocEnd c)) = ['/'] from by decide]
    rw [List.singleton_append]
  have hH : splitFirstChar '#' ('/' :: id) = ('/' :: id, []) := by
    apply splitFirst_absent
    rw [List.all_cons, allNeOf id hall '#' (by decide)]
    decide
  have hI : splitFirstChar '?' ('/' :: id) = ('/' :: id, []) := by
    apply splitFirst_absent
    rw [List.all_cons, allNeOf id hall '?' (by decide)]
    decide
  have hcond : (("https".toList) ≠ [] ∧ (("https".toList).headD ' ').isAlpha ∧
      ("https".toList).all isSchemeCharB) := by decide
  have hlower : ("https".toList).map Char.toLower = ("https".toList) := by decide
  simp only [urlparseL, hA, hB, hD, hE, hF, hG, hH, hI, hlower, if_pos hcond, if_true]

theorem urlparse_embed (id : List Char) (hall : id.all isIdChar = true) :
    urlparseL (("https://www.youtube.com/embed/".toList) ++ id) =
      { scheme := ("https".toList), netloc := ("www.youtube.com".toList),
        path := ("/embed/".toList) ++ id, query := [], fragment := [] } := by
  have hB : takeUntilChar ':' (("https://www.youtube.com/embed/".toList) ++ id) =
      ("https".toList) := by
    unfold takeUntilChar
    rw [(tw_append_stop (fun a => a != ':') ("https://www.youtube.com/embed/".toList) id
      (by decide)).1]
    decide
  have hA : dropUntilChar ':' (("https://www.youtube.com/embed/".toList) ++ id) =
      ':' :: (("//www.youtube.com/embed/".toList) ++ id) := by
    unfold dropUntilChar
    rw [(tw_append_stop (fun a => a != ':') ("https://www.youtube.com/embed/".toList) id
      (by decide)).2]
    rw [show ("https://www.youtube.com/embed/".toList).dropWhile (fun a => a != ':') =
      ':' :: ("//www.youtube.com/embed/".toList) from by decide]
    rw [List.cons_append]
  have hD : startsWithL (("//www.youtube.com/embed/".toList) ++ id) ("//".toList) = true := by
    rw [startsWithL_append_left _ _ _ (by decide)]
    decide
  have hE : (("//www.youtube.com/embed/".toList) ++ id).drop 2 =
      ("www.youtube.com/embed/".toList) ++ id := by
    rw [drop_two_append _ _ (by decide)]
    rw [show ("//www.youtube.com/embed/".toList).drop 2 =
      ("www.youtube.com/embed/".toList) from by decide]
  have hF : (("www.youtube.com/embed/".toList) ++ id).takeWhile (fun c => !(isNetlocEnd c)) =
      ("www.youtube.com".toList) := by
    rw [(tw_append_stop (fun c => !(isNetlocEnd c)) ("www.youtube.com/embed/".toList) id
      (by decide)).1]
    decide
  have hG : (("www.youtube.com/embed/".toList) ++ id).dropWhile (fun c => !(isNetlocEnd c)) =
      ("/embed/".toList) ++ id := by
    rw [(tw_append_stop (fun c => !(isNetlocEnd c)) ("www.youtube.com/embed/".toList) id
      (by decide)).2]
    rw [show ("www.youtube.com/embed/".toList).dropWhile (fun c => !(isNetlocEnd c)) =
      ("/embed/".toList) from by decide]
  have hH : splitFirstChar '#' (("/embed/".toList) ++ id) = ((("/embed/".toList) ++ id), []) := by
    apply splitFirst_absent
    rw [List.all_append, allNeOf id hall '#' (by decide)]
    decide
  have hI : splitFirstChar '?' (("/embed/".toList) ++ id) = ((("/embed/".toList) ++ id), []) := by
    apply splitFirst_absent
    rw [List.all_append, allNeOf id hall '?' (by decide)]
    decide
  have hcond : (("https".toList) ≠ [] ∧ (("https".toList).headD ' ').isAlpha ∧
      ("https".toList).all isSchemeCharB) := by decide
  have hlower : ("https".toList).map Char.toLower = ("https".toList) := by decide
  simp only [urlparseL, hA, hB, hD, hE, hF, hG, hH, hI, hlower, if_pos hcond, if_true]

theorem urlparse_vpath (id : List Char) (hall : id.all isIdChar = true) :
    urlparseL (("https://www.youtube.com/v/".toList) ++ id) =
      { scheme := ("https".toList), netloc := ("www.youtube.com".toList),
        path := ("/v/".toList) ++ id, query := [], fragment := [] } := by
  have hB : takeUntilChar ':' (("https://www.youtube.com/v/".toList) ++ id) =
      ("https".toList) := by
    unfold takeUntilChar
    rw [(tw_append_stop (fun a => a != ':') ("https://www.youtube.com/v/".toList) id
      (by decide)).1]
    decide
  have hA : dropUntilChar ':' (("https://www.youtube.com/v/".toList) ++ id) =
      ':' :: (("//www.youtube.com/v/".toList) ++ id) := by
    unfold dropUntilChar
    rw [(tw_append_stop (fun a => a != ':') ("https://www.youtube.com/v/".toList) id
      (by decide)).2]
    rw [show ("https://www.youtube.com/v/".toList).dropWhile (fun a => a != ':') =
      ':' :: ("//www.youtube.com/v/".toList) from by decide]
    rw [List.cons_append]
  have hD : startsWithL (("//www.youtube.com/v/".toList) ++ id) ("//".toList) = true := by
    rw [startsWithL_append_left _ _ _ (by decide)]
    decide
  have hE : (("//www.youtube.com/v/".toList) ++ id).drop 2 =
      ("www.youtube.com/v/".toList) ++ id := by
    rw [drop_two_append _ _ (by decide)]
    rw [show ("//www.youtube.com/v/".toList).drop 2 =
      ("www.youtube.com/v/".toList) from by decide]
  have hF : (("www.youtube.com/v/".toList) ++ id).takeWhile (fun c => !(isNetlocEnd c)) =
      ("www.youtube.com".toList) := by
    rw [(tw_append_stop (fun c => !(isNetlocEnd c)) ("www.youtube.com/v/".toList) id
      (by decide)).1]
    decide
  have hG : (("www.youtube.com/v/".toList) ++ id).dropWhile (fun c => !(isNetlocEnd c)) =
      ("/v/".toList) ++ id := by
    rw [(tw_append_stop (fun c => !(isNetlocEnd c)) ("www.youtube.com/v/".toList) id
      (by decide)).2]
    rw [show ("www.youtube.com/v/".toList).dropWhile (fun c => !(isNetlocEnd c)) =
      ("/v/".toList) from by decide]
  have hH : splitFirstChar '#' (("/v/".toList) ++ id) = ((("/v/".toList) ++ id), []) := by
    apply splitFirst_absent
    rw [List.all_append, allNeOf id hall '#' (by decide)]
    decide
  have hI : splitFirstChar '?' (("/v/".toList) ++ id) = ((("/v/".toList) ++ id), []) := by
    apply splitFirst_absent
    rw [List.all_append, allNeOf id hall '?' (by decide)]
    decide
  have hcond : (("https".toList) ≠ [] ∧ (("https".toList).headD ' ').isAlpha ∧
      ("https".toList).all isSchemeCharB) := by decide
  have hlower : ("https".toList).map Char.toLower = ("https".toList) := by decide
  simp only [urlparseL, hA, hB, hD, hE, hF, hG, hH, hI, hlower, if_pos hcond, if_true]

theorem urlparse_bare (id : List Char) (hall : id.all isIdChar = true) :
    urlparseL id = { scheme := [], netloc := [], path := id, query := [], fragment := [] } := by
  have hA : dropUntilChar ':' id = [] := by
    unfold dropUntilChar
    exact dropWhile_all_nil _ _ (allNeOf id hall ':' (by decide))
  have hD : startsWithL id ("//".toList) = false := startsWithL_not_slashes id hall
  have hH : splitFirstChar '#' id = (id, []) :=
    splitFirst_absent _ _ (allNeOf id hall '#' (by decide))
  have hI : splitFirstChar '?' id = (id, []) :=
    splitFirst_absent _ _ (allNeOf id hall '?' (by decide))
  simp only [urlparseL, hA, hD, hH, hI, Bool.false_eq_true, if_false]

end YT

namespace YT

theorem extract_watch_shape (id : List Char) (hlen : id.length = 11)
    (hall : id.all isIdChar = true) :
    extract_video_id (("https://www.youtube.com/watch?v=".toList) ++ id) = some id := by
  have hup := urlparse_watch id hall
  have hg1 : containsSub (("https://www.youtube.com/watch?v=".toList) ++ id)
      ("youtube.com/watch".toList) = true :=
    containsSub_append_left _ _ _ (by decide)
  have hfield : ("v=".toList) ++ id = 'v' :: '=' :: id := rfl
  have hqsplit : splitOnCharL '&' ('v' :: '=' :: id) = ['v' :: '=' :: id] := by
    apply splitOn_no_sep
    rw [List.all_cons, List.all_cons, allNeOf id hall '&' (by decide)]
    decide
  have hdrop : dropUntilChar '=' ('v' :: '=' :: id) = '=' :: id := by
    unfold dropUntilChar
    rw [List.dropWhile_cons, if_pos (by decide), List.dropWhile_cons, if_neg (by decide)]
  have htake : takeUntilChar '=' ('v' :: '=' :: id) = ['v'] := by
    unfold takeUntilChar
    rw [List.takeWhile_cons, if_pos (by decide), List.takeWhile_cons, if_neg (by decide)]
  have hpairs : parseQsPairs ('v' :: '=' :: id) = [((['v'] : List Char), id)] := by
    unfold parseQsPairs
    rw [hqsplit]
    simp only [List.filterMap_cons, List.filterMap_nil, List.isEmpty_cons,
      Bool.false_eq_true, if_false, hdrop, htake, id_isEmpty_false id hlen,
      unquotePlus_eq_self id hall]
    rw [show unquotePlus ['v'] = ['v'] from by decide]
  have hqs : qsFirstV [((['v'] : List Char), id)] = some id := by
    unfold qsFirstV
    rw [if_pos (by decide)]
  simp only [extract_video_id, hg1, if_true, hup, hfield, hpairs, hqs]

theorem extract_short_shape (id : List Char) (hlen : id.length = 11)
    (hall : id.all isIdChar = true) :
    extract_video_id (("https://youtu.be/".toList) ++ id) = some id := by
  have hup := urlparse_short id hall
  have hg2 : containsSub (("https://youtu.be/".toList) ++ id) ("youtu.be/".toList) = true :=
    containsSub_append_left _ _ _ (by decide)
  simp only [extract_video_id, hup, show qsFirstV (parseQsPairs []) = none from rfl,
    ite_self, hg2, if_true]
  rw [dropSlashes_cons_id id hlen hall]

theorem extract_embed_shape (id : List Char) (hlen : id.length = 11)
    (hall : id.all isIdChar = true) :
    extract_video_id (("https://www.youtube.com/embed/".toList) ++ id) = some id := by
  have hup := urlparse_embed id hall
  have hg2 : containsSub (("https://www.youtube.com/embed/".toList) ++ id)
      ("youtu.be/".toList) = false :=
    containsSub_append_eq_false _ _ _ isIdChar (by decide) hall
  have hg3 : containsSub (("https://www.youtube.com/embed/".toList) ++ id)
      ("youtube.com/embed/".toList) = true :=
    containsSub_append_left _ _ _ (by decide)
  obtain ⟨S, x, h1, h2⟩ := splitOn_append_no_sep '/' ("/embed/".toList) id
    (allNeOf id hall '/' (by decide))
  have hx : x = [] := by
    have hc : lastD (splitOnCharL '/' ("/embed/".toList)) = [] := by decide
    rw [h1, lastD_concat] at hc
    exact hc
  simp only [extract_video_id, hup, show qsFirstV (parseQsPairs []) = none from rfl,
    ite_self, hg2, Bool.false_eq_true, if_false, hg3, Bool.true_or, if_true]
  rw [h2, lastD_concat, hx, List.nil_append]

theorem extract_vpath_shape (id : List Char) (hlen : id.length = 11)
    (hall : id.all isIdChar = true) :
    extract_video_id (("https://www.youtube.com/v/".toList) ++ id) = some id := by
  have hup := urlparse_vpath id hall
  have hg2 : containsSub (("https://www.youtube.com/v/".toList) ++ id)
      ("youtu.be/".toList) = false :=
    containsSub_append_eq_false _ _ _ isIdChar (by decide) hall
  have hg3 : containsSub (("https://www.youtube.com/v/".toList) ++ id)
      ("youtube.com/v/".toList) = true :=
    containsSub_append_left _ _ _ (by decide)
  obtain ⟨S, x, h1, h2⟩ := splitOn_append_no_sep '/' ("/v/".toList) id
    (allNeOf id hall '/' (by decide))
  have hx : x = [] := by
    have hc : lastD (splitOnCharL '/' ("/v/".toList)) = [] := by decide
    rw [h1, lastD_concat] at hc
    exact hc
  simp only [extract_video_id, hup, show qsFirstV (parseQsPairs []) = none from rfl,
    ite_self, hg2, Bool.false_eq_true, if_false, hg3, Bool.or_true, if_true]
  rw [h2, lastD_concat, hx, List.nil_append]

theorem extract_bare_shape (id : List Char) (hlen : id.length = 11)
    (hall : id.all isIdChar = true) :
    extract_video_id id = some id := by
  have hup := urlparse_bare id hall
  have hg2 : containsSub id ("youtu.be/".toList) = false := by
    have := containsSub_append_eq_false [] id ("youtu.be/".toList) isIdChar (by decide) hall
    rwa [List.nil_append] at this
  have hg3a : containsSub id ("youtube.com/embed/".toList) = false := by
    have := containsSub_append_eq_false [] id ("youtube.com/embed/".toList) isIdChar
      (by decide) hall
    rwa [List.nil_append] at this
  have hg3b : containsSub id ("youtube.com/v/".toList) = false := by
    have := containsSub_append_eq_false [] id ("youtube.com/v/".toList) isIdChar
      (by decide) hall
    rwa [List.nil_append] at this
  have hbare : reMatchBareId id = true := by
    simp [reMatchBareId, hlen, hall]
  simp only [extract_video_id, hup, show qsFirstV (parseQsPairs []) = none from rfl,
    ite_self, hg2, hg3a, hg3b, Bool.false_eq_true, if_false, Bool.false_or, hbare, if_true]

/-- C8: the four supported URL shapes — `watch?v=`, `youtu.be/`, `/embed/`,
`/v/` — and a bare 11-character token all normalize to the same video ID,
for every identifier over `[A-Za-z0-9_-]`; and the pattern precedence is
fixed with first match wins, shown on URLs that match two patterns at
once. -/
theorem c8_normalizer_shapes (id : List Char) (hlen : id.length = 11)
    (hall : id.all isIdChar = true) :
    extract_video_id (("https://www.youtube.com/watch?v=".toList) ++ id) = some id ∧
    extract_video_id (("https://youtu.be/".toList) ++ id) = some id ∧
    extract_video_id (("https://www.youtube.com/embed/".toList) ++ id) = some id ∧
    extract_video_id (("https://www.youtube.com/v/".toList) ++ id) = some id ∧
    extract_video_id id = some id ∧
    extract_video_id ("https://www.youtube.com/watch?v=AAAAAAAAAAA&u=youtu.be/BBBBBBBBBBB".toList) =
      some ("AAAAAAAAAAA".toList) ∧
    extract_video_id ("https://youtu.be/AAAAAAAAAAA?u=youtube.com/embed/BBBBBBBBBBB".toList) =
      some ("AAAAAAAAAAA".toList) :=
  ⟨extract_watch_shape id hlen hall, extract_short_shape id hlen hall,
   extract_embed_shape id hlen hall, extract_vpath_shape id hlen hall,
   extract_bare_shape id hlen hall, by decide, by decide⟩

theorem c8_normalizer_shapes_witness :
    extract_video_id (("https://www.youtube.com/watch?v=".toList) ++ ("dQw4w9WgXcQ".toList)) =
      some ("dQw4w9WgXcQ".toList) ∧
    extract_video_id (("https://youtu.be/".toList) ++ ("dQw4w9WgXcQ".toList)) =
      some ("dQw4w9WgXcQ".toList) ∧
    extract_video_id ("dQw4w9WgXcQ".toList) = some ("dQw4w9WgXcQ".toList) :=
  ⟨(c8_normalizer_shapes ("dQw4w9WgXcQ".toList) (by decide) (by decide)).1,
   (c8_normalizer_shapes ("dQw4w9WgXcQ".toList) (by decide) (by decide)).2.1,
   (c8_normalizer_shapes ("dQw4w9WgXcQ".toList) (by decide) (by decide)).2.2.2.2.1⟩

end YT
